import Mathlib

/-!
# Verification of the Bitespeed contact-reconciliation service

Shallow embedding of the identity-reconciliation core (the `/identify`
endpoint and its helpers from the Express/SQLite server source).  The
store is modelled as the list of `Contact` rows in rowid (insertion)
order together with the next AUTOINCREMENT id; timestamps are natural
numbers.  JavaScript string truthiness (empty string is falsy) is
modelled explicitly, and SQL text ordering on `linkPrecedence` uses the
fact that the string `primary` sorts before `secondary` in the binary
collation.
-/

/-- `linkPrecedence TEXT CHECK(linkPrecedence IN ('primary', 'secondary'))`. -/
inductive Prec where
  | primary
  | secondary
deriving DecidableEq

/-- One row of the `Contact` table, fields in schema order. -/
structure Contact where
  id : Nat
  phoneNumber : Option String
  email : Option String
  linkedId : Option Nat
  linkPrecedence : Prec
  createdAt : Nat
  updatedAt : Nat
  deletedAt : Option Nat
deriving DecidableEq

/-- The `(email, phoneNumber)` pair of an `/identify` request body. -/
structure Req where
  email : Option String
  phoneNumber : Option String
deriving DecidableEq

/-- The consolidated-identity object built by `returnResponse`; the first
field name carries the source's exact (transposed) spelling. -/
structure ContactResp where
  primaryContatctId : Nat
  emails : List String
  phoneNumbers : List String
  secondaryContactIds : List Nat
deriving DecidableEq

/-- JSON values appearing in the serialized response object. -/
inductive JVal where
  | jnum (n : Nat)
  | jstrs (l : List String)
  | jnums (l : List Nat)
deriving DecidableEq

/-- JavaScript truthiness of an optional request string: `undefined`/`null`
and the empty string are falsy. -/
def truthy : Option String → Bool
  | none => false
  | some s => s != ""

/-- Models the `x || null` coalescing used for INSERT parameters. -/
def orNull (o : Option String) : Option String :=
  if truthy o then o else none

/-- Models `email ? [email] : []` in the fresh-primary response. -/
def reqValList (o : Option String) : List String :=
  match o with
  | some s => if s = "" then [] else [s]
  | none => []

/-- SQL `field = ?` match for a request value: the condition is only added
to the query when the request value is truthy, and `NULL = x` is false. -/
def matchVal (q : Option String) (v : Option String) : Bool :=
  match q with
  | some qs => if qs = "" then false else v == some qs
  | none => false

/-- `findContactsByEmailOrPhone`: every non-deleted row whose email or
phone equals a supplied value (filters preserve rowid order). -/
def findContactsByEmailOrPhone (e p : Option String) (s : List Contact) : List Contact :=
  s.filter (fun c => c.deletedAt == none && (matchVal e c.email || matchVal p c.phoneNumber))

/-- `contact.linkPrecedence === 'primary' ? contact.id : contact.linkedId`. -/
def chainIdOf (c : Contact) : Option Nat :=
  if c.linkPrecedence = Prec.primary then some c.id else c.linkedId

/-- `'primary'` sorts after `'secondary'` under `ORDER BY linkPrecedence
DESC`, so encode `primary ↦ 1`, `secondary ↦ 0` and sort the key ascending. -/
def precKey : Prec → Nat
  | Prec.primary => 1
  | Prec.secondary => 0

/-- The CTE's final `ORDER BY linkPrecedence DESC, createdAt ASC` as a
total preorder on rows. -/
def chainLE (a b : Contact) : Prop :=
  precKey a.linkPrecedence < precKey b.linkPrecedence ∨
    (precKey a.linkPrecedence = precKey b.linkPrecedence ∧ a.createdAt ≤ b.createdAt)

instance : DecidableRel chainLE := fun a b => by unfold chainLE; infer_instance

/-- `new Date(a.createdAt) - new Date(b.createdAt)` comparator as a preorder. -/
def createdLE (a b : Contact) : Prop :=
  a.createdAt ≤ b.createdAt

instance : DecidableRel createdLE := fun a b => by unfold createdLE; infer_instance

/-- Root rows of the recursive CTE: `(id = ? OR linkedId = ?) AND deletedAt
IS NULL AND linkPrecedence = 'primary'`. -/
def chainRoots (s : List Contact) (n : Nat) : List Contact :=
  s.filter (fun c =>
    (c.id == n || c.linkedId == some n) && c.deletedAt == none
      && c.linkPrecedence == Prec.primary)

/-- One recursive step of the CTE: rows joined on `c.linkedId = cc.id`
with `c.deletedAt IS NULL`. -/
def chainChildren (s : List Contact) (frontier : List Contact) : List Contact :=
  s.filter (fun c => c.deletedAt == none && frontier.any (fun f => c.linkedId == some f.id))

/-- Iterated recursive step of the CTE (`UNION ALL` accumulates levels);
the fuel bounds the iteration and is instantiated with the store size,
which exceeds the depth of every acyclic chain. -/
def chainLevels (s : List Contact) : Nat → List Contact → List Contact
  | 0, _ => []
  | fuel + 1, frontier =>
    let next := chainChildren s frontier
    if next.isEmpty then [] else next ++ chainLevels s fuel next

/-- All rows produced by the CTE before the final `ORDER BY`. -/
def chainUnsorted (n : Nat) (s : List Contact) : List Contact :=
  chainRoots s n ++ chainLevels s s.length (chainRoots s n)

/-- `getAllContactsInChain`: the CTE rows under `ORDER BY linkPrecedence
DESC, createdAt ASC` (rows with equal keys keep a stable order). -/
def getAllContactsInChain (n : Nat) (s : List Contact) : List Contact :=
  List.insertionSort chainLE (chainUnsorted n s)

/-- The non-deleted rows with `linkedId = n` (the secondaries the CTE
adds below a primary whose id is `n`). -/
def chainSecondaries (n : Nat) (s : List Contact) : List Contact :=
  s.filter (fun c => c.deletedAt == none && c.linkedId == some n)

/-- `[...new Set(l)]` keeps the first occurrence of each value, in order;
`seen` accumulates the values already emitted. -/
def dedupFirstAux {α : Type} [DecidableEq α] (seen : List α) : List α → List α
  | [] => []
  | x :: xs => if x ∈ seen then dedupFirstAux seen xs else x :: dedupFirstAux (x :: seen) xs

/-- `[...new Set(l)]`. -/
def dedupFirst {α : Type} [DecidableEq α] (l : List α) : List α :=
  dedupFirstAux [] l

/-- `.filter(Boolean)` over optional strings: drops `null` and `""`. -/
def filterBooleanStr (l : List (Option String)) : List String :=
  l.filterMap (fun o =>
    match o with
    | some x => if x = "" then none else some x
    | none => none)

/-- `returnResponse`: finds the primary, collects deduplicated truthy
emails/phones (primary's value first), and the secondary ids in chain
order.  When the list has no primary the source dereferences `undefined`
and crashes, modelled as `none`. -/
def returnResponse (contacts : List Contact) : Option ContactResp :=
  match contacts.find? (fun c => c.linkPrecedence == Prec.primary) with
  | none => none
  | some primary =>
    let secondaries := contacts.filter (fun c => c.linkPrecedence == Prec.secondary)
    some ⟨primary.id,
      dedupFirst (filterBooleanStr (primary.email :: secondaries.map (fun c => c.email))),
      dedupFirst (filterBooleanStr
        (primary.phoneNumber :: secondaries.map (fun c => c.phoneNumber))),
      secondaries.map (fun c => c.id)⟩

/-- The key/value pairs of the serialized `contact` object, with the exact
key spellings written in the source (`res.json({ contact: {...} })`). -/
def respJsonFields (r : ContactResp) : List (String × JVal) :=
  [("primaryContatctId", JVal.jnum r.primaryContatctId),
   ("emails", JVal.jstrs r.emails),
   ("phoneNumbers", JVal.jstrs r.phoneNumbers),
   ("secondaryContactIds", JVal.jnums r.secondaryContactIds)]

/-- `contacts.some(c => c.email === email)` guarded by the truthiness of
the request email, as in `email && contacts.some(...)`. -/
def hasEmailVal (contacts : List Contact) (q : Option String) : Bool :=
  match q with
  | some v => if v = "" then false else contacts.any (fun c => c.email == some v)
  | none => false

/-- `phoneNumber && contacts.some(c => c.phoneNumber === phoneNumber)`. -/
def hasPhoneVal (contacts : List Contact) (q : Option String) : Bool :=
  match q with
  | some v => if v = "" then false else contacts.any (fun c => c.phoneNumber == some v)
  | none => false

/-- The demotion UPDATE: `SET linkPrecedence='secondary', linkedId=?,
updatedAt=CURRENT_TIMESTAMP WHERE id = ?`, as a per-row function. -/
def demoteUpd (oid pid now : Nat) (c : Contact) : Contact :=
  if c.id = pid then
    { c with linkPrecedence := Prec.secondary, linkedId := some oid, updatedAt := now }
  else c

/-- The reparenting UPDATE: `SET linkedId=?, updatedAt=CURRENT_TIMESTAMP
WHERE linkedId = ? AND id != ?`, as a per-row function (note: no
`deletedAt` filter in the source). -/
def reparentUpd (oid pid now : Nat) (c : Contact) : Contact :=
  if c.linkedId = some pid ∧ c.id ≠ pid then
    { c with linkedId := some oid, updatedAt := now }
  else c

/-- The merge's sequence of atomic store updates: for each demoted former
primary, first the demotion UPDATE, then the reparenting UPDATE. -/
def mergeAtomicOps (oid : Nat) (pids : List Nat) (now : Nat) :
    List (List Contact → List Contact) :=
  pids.flatMap (fun pid =>
    [List.map (demoteUpd oid pid now), List.map (reparentUpd oid pid now)])

/-- Applying the first `k` atomic updates of the merge sequence (the state
the store is left in when the sequence fails after `k` statements; the
source wraps nothing in a transaction). -/
def applyMergePrefix (oid : Nat) (pids : List Nat) (now k : Nat) (s : List Contact) :
    List Contact :=
  ((mergeAtomicOps oid pids now).take k).foldl (fun st f => f st) s

/-- Applying the whole merge sequence. -/
def applyMergeAll (oid : Nat) (pids : List Nat) (now : Nat) (s : List Contact) :
    List Contact :=
  (mergeAtomicOps oid pids now).foldl (fun st f => f st) s

/-- Both UPDATEs of one demotion, fused per row. -/
def demoteStep (oid pid now : Nat) (c : Contact) : Contact :=
  reparentUpd oid pid now (demoteUpd oid pid now c)

/-- The whole merge sequence as a single per-row function. -/
def mergeContact (oid : Nat) (pids : List Nat) (now : Nat) (c : Contact) : Contact :=
  pids.foldl (fun c pid => demoteStep oid pid now c) c

/-- The first element of the list attaining the minimal `createdAt` (what
a stable sort by `createdAt` puts in front). -/
def firstMinByCreated : List Contact → Option Contact
  | [] => none
  | c :: cs =>
    match firstMinByCreated cs with
    | none => some c
    | some m => if c.createdAt ≤ m.createdAt then some c else some m

/-- The no-match path: INSERT a fresh primary and answer inline. -/
def identifyNoMatch (s : List Contact) (nid : Nat) (req : Req) (now : Nat) :
    List Contact × Nat × Option ContactResp :=
  (s ++ [⟨nid, orNull req.phoneNumber, orNull req.email, none, Prec.primary, now, now, none⟩],
   nid + 1,
   some ⟨nid, reqValList req.email, reqValList req.phoneNumber, []⟩)

/-- The single-chain path: `if (!hasEmail || !hasPhone)` insert one
secondary under the chain's primary and re-resolve, else answer from the
chain unchanged. -/
def identifySingleChain (s : List Contact) (nid : Nat) (req : Req) (now : Nat)
    (contacts : List Contact) : List Contact × Nat × Option ContactResp :=
  let hasEmail := hasEmailVal contacts req.email
  let hasPhone := hasPhoneVal contacts req.phoneNumber
  if !hasEmail || !hasPhone then
    match contacts.find? (fun c => c.linkPrecedence == Prec.primary) with
    | none => (s, nid, none)
    | some pc =>
      let s2 := s ++
        [⟨nid, orNull req.phoneNumber, orNull req.email, some pc.id, Prec.secondary,
          now, now, none⟩]
      (s2, nid + 1, returnResponse (getAllContactsInChain pc.id s2))
  else (s, nid, returnResponse contacts)

/-- The multi-chain path: stably sort the primaries by `createdAt`, demote
every primary after the first and reparent its children, then
`if ((!email || hasEmail) && (!phoneNumber || hasPhone))` answer from the
merged chain, else insert one secondary under the survivor first. -/
def identifyMerge (s : List Contact) (nid : Nat) (req : Req) (now : Nat)
    (allContacts : List Contact) : List Contact × Nat × Option ContactResp :=
  let prims := allContacts.filter (fun c => c.linkPrecedence == Prec.primary)
  match List.insertionSort createdLE prims with
  | [] => (s, nid, none)
  | oldest :: demoted =>
    let s1 := applyMergeAll oldest.id (demoted.map (fun c => c.id)) now s
    let hasEmail := hasEmailVal allContacts req.email
    let hasPhone := hasPhoneVal allContacts req.phoneNumber
    if (!truthy req.email || hasEmail) && (!truthy req.phoneNumber || hasPhone) then
      (s1, nid, returnResponse (getAllContactsInChain oldest.id s1))
    else
      let s2 := s1 ++
        [⟨nid, orNull req.phoneNumber, orNull req.email, some oldest.id, Prec.secondary,
          now, now, none⟩]
      (s2, nid + 1, returnResponse (getAllContactsInChain oldest.id s2))

/-- One completed `/identify` request against store `s` with next id `nid`
at time `now`: validation, match, then dispatch on the number of distinct
chain ids (`Map` keys in first-encounter order). -/
def identifyStep (s : List Contact) (nid : Nat) (req : Req) (now : Nat) :
    List Contact × Nat × Option ContactResp :=
  if !truthy req.email && !truthy req.phoneNumber then (s, nid, none)
  else
    let existing := findContactsByEmailOrPhone req.email req.phoneNumber s
    if existing = [] then identifyNoMatch s nid req now
    else
      let cids := dedupFirst (existing.map chainIdOf)
      if cids.length = 1 then
        identifySingleChain s nid req now
          (match cids with
           | [some n] => getAllContactsInChain n s
           | _ => [])
      else if cids.length > 1 then
        identifyMerge s nid req now
          ((cids.map (fun cid =>
            match cid with
            | some n => getAllContactsInChain n s
            | none => [])).flatten)
      else (s, nid, none)

/-- Running a sequence of requests (each with its timestamp) from the
empty store; AUTOINCREMENT ids start at 1. -/
def runIdentify (reqs : List (Req × Nat)) : List Contact × Nat :=
  reqs.foldl (fun acc rq =>
    let r := identifyStep acc.1 acc.2 rq.1 rq.2
    (r.1, r.2.1)) ([], 1)

/-- Well-formedness of a store with next fresh id `nid`: distinct ids, no
tombstones, `linkPrecedence = primary` exactly when `linkedId` is null,
every `linkedId` references an existing primary, ids below `nid`, and no
stored empty-string values (inserts coalesce `""` to null). -/
def WF (s : List Contact) (nid : Nat) : Prop :=
  (s.map (fun c => c.id)).Nodup ∧
  (∀ c ∈ s, c.deletedAt = none) ∧
  (∀ c ∈ s, (c.linkPrecedence = Prec.primary ↔ c.linkedId = none)) ∧
  (∀ c ∈ s, ∀ j, c.linkedId = some j →
    ∃ d, d ∈ s ∧ d.id = j ∧ d.linkPrecedence = Prec.primary) ∧
  (∀ c ∈ s, c.id < nid) ∧
  (∀ c ∈ s, c.email ≠ some "" ∧ c.phoneNumber ≠ some "")

instance (s : List Contact) (nid : Nat) : Decidable (WF s nid) := by
  unfold WF; infer_instance

/-- Replaces empty-string field values by null, leaving other fields
untouched (used to state that `""` and null are interchangeable for the
response builder). -/
def blankToNone (c : Contact) : Contact :=
  { c with
    email := match c.email with
      | some x => if x = "" then none else some x
      | none => none,
    phoneNumber := match c.phoneNumber with
      | some x => if x = "" then none else some x
      | none => none }

/-! ## Generic list lemmas -/

theorem dedupFirstAux_mem {α : Type} [DecidableEq α] (seen l : List α) (a : α) :
    a ∈ dedupFirstAux seen l ↔ a ∈ l ∧ a ∉ seen := by
  induction l generalizing seen with
  | nil => simp [dedupFirstAux]
  | cons x xs ih =>
    simp only [dedupFirstAux]
    by_cases hx : x ∈ seen
    · rw [if_pos hx, ih]
      simp only [List.mem_cons]
      constructor
      · rintro ⟨h1, h2⟩
        exact ⟨Or.inr h1, h2⟩
      · rintro ⟨h1 | h1, h2⟩
        · subst h1
          exact absurd hx h2
        · exact ⟨h1, h2⟩
    · rw [if_neg hx]
      simp only [List.mem_cons, ih, List.mem_cons]
      constructor
      · rintro (rfl | ⟨h1, h2⟩)
        · exact ⟨Or.inl rfl, hx⟩
        · constructor
          · exact Or.inr h1
          · intro hs
            exact h2 (Or.inr hs)
      · rintro ⟨h1 | h1, h2⟩
        · exact Or.inl h1
        · by_cases hax : a = x
          · exact Or.inl hax
          · exact Or.inr ⟨h1, fun hs => by
              rcases hs with hs | hs
              · exact hax hs
              · exact h2 hs⟩

theorem dedupFirst_mem {α : Type} [DecidableEq α] (l : List α) (a : α) :
    a ∈ dedupFirst l ↔ a ∈ l := by
  unfold dedupFirst
  rw [dedupFirstAux_mem]
  simp

theorem dedupFirstAux_nodup {α : Type} [DecidableEq α] (seen l : List α) :
    (dedupFirstAux seen l).Nodup := by
  induction l generalizing seen with
  | nil => simp [dedupFirstAux]
  | cons x xs ih =>
    simp only [dedupFirstAux]
    by_cases hx : x ∈ seen
    · rw [if_pos hx]; exact ih seen
    · rw [if_neg hx]
      refine List.nodup_cons.2 ⟨?_, ih (x :: seen)⟩
      intro hmem
      have := (dedupFirstAux_mem (x :: seen) xs x).1 hmem
      exact this.2 (List.mem_cons_self x seen)

theorem dedupFirst_nodup {α : Type} [DecidableEq α] (l : List α) :
    (dedupFirst l).Nodup :=
  dedupFirstAux_nodup [] l

theorem dedupFirstAux_eq_nil {α : Type} [DecidableEq α] (seen l : List α)
    (h : ∀ a ∈ l, a ∈ seen) : dedupFirstAux seen l = [] := by
  induction l with
  | nil => rfl
  | cons x xs ih =>
    simp only [dedupFirstAux]
    rw [if_pos (h x (List.mem_cons_self x xs))]
    exact ih fun a ha => h a (List.mem_cons_of_mem _ ha)

theorem dedupFirst_const {α : Type} [DecidableEq α] (l : List α) (x : α)
    (hne : l ≠ []) (hall : ∀ a ∈ l, a = x) : dedupFirst l = [x] := by
  cases l with
  | nil => exact absurd rfl hne
  | cons y ys =>
    have hy : y = x := hall y (List.mem_cons_self y ys)
    subst hy
    unfold dedupFirst
    simp only [dedupFirstAux, List.not_mem_nil, if_neg (fun h => h)]
    congr 1
    exact dedupFirstAux_eq_nil _ _ fun a ha => by
      rw [hall a (List.mem_cons_of_mem _ ha)]
      exact List.mem_cons_self y []

theorem dedupFirst_ne_nil {α : Type} [DecidableEq α] (l : List α) (hne : l ≠ []) :
    dedupFirst l ≠ [] := by
  cases l with
  | nil => exact absurd rfl hne
  | cons x xs =>
    unfold dedupFirst
    simp only [dedupFirstAux]
    rw [if_neg (List.not_mem_nil x)]
    simp

theorem dedupFirst_singleton_all {α : Type} [DecidableEq α] (l : List α) (x : α)
    (h : dedupFirst l = [x]) : ∀ a ∈ l, a = x := by
  intro a ha
  have : a ∈ dedupFirst l := (dedupFirst_mem l a).2 ha
  rw [h] at this
  simpa using this

theorem filter_eq_singleton_of_unique (s : List Contact) (p : Contact → Bool) (x : Contact)
    (hnd : (s.map (fun c => c.id)).Nodup) (hx : x ∈ s) (hpx : p x = true)
    (huniq : ∀ y ∈ s, p y = true → y = x) : s.filter p = [x] := by
  induction s with
  | nil => simp at hx
  | cons a t ih =>
    simp only [List.map_cons, List.nodup_cons] at hnd
    by_cases hpa : p a = true
    · have hax : a = x := huniq a (List.mem_cons_self a t) hpa
      subst hax
      rw [List.filter_cons_of_pos hpa]
      have ht : t.filter p = [] := by
        rw [List.filter_eq_nil_iff]
        intro y hy hpy
        have hyx : y = a := huniq y (List.mem_cons_of_mem _ hy) (by simpa using hpy)
        subst hyx
        exact hnd.1 (List.mem_map_of_mem (fun c => c.id) hy)
      rw [ht]
    · rw [List.filter_cons_of_neg (by simpa using hpa)]
      have hxt : x ∈ t := by
        rcases List.mem_cons.1 hx with rfl | h
        · exact absurd hpx hpa
        · exact h
      exact ih hnd.2 hxt fun y hy hpy => huniq y (List.mem_cons_of_mem _ hy) hpy

theorem find?_eq_of_unique (l : List Contact) (p : Contact → Bool) (x : Contact)
    (hx : x ∈ l) (hpx : p x = true)
    (huniq : ∀ y ∈ l, p y = true → y = x) : l.find? p = some x := by
  induction l with
  | nil => simp at hx
  | cons a t ih =>
    by_cases hpa : p a = true
    · rw [List.find?_cons_of_pos _ hpa]
      rw [huniq a (List.mem_cons_self a t) hpa]
    · rw [List.find?_cons_of_neg _ (by simpa using hpa)]
      have hxt : x ∈ t := by
        rcases List.mem_cons.1 hx with rfl | h
        · exact absurd hpx hpa
        · exact h
      exact ih hxt fun y hy hpy => huniq y (List.mem_cons_of_mem _ hy) hpy

theorem find?_append_of_none (l l2 : List Contact) (p : Contact → Bool)
    (h : ∀ y ∈ l, p y = false) : (l ++ l2).find? p = l2.find? p := by
  induction l with
  | nil => rfl
  | cons a t ih =>
    rw [List.cons_append, List.find?_cons_of_neg _ (by simp [h a (List.mem_cons_self a t)])]
    exact ih fun y hy => h y (List.mem_cons_of_mem _ hy)

theorem two_mem_le_length {α : Type} (l : List α) (x y : α)
    (hx : x ∈ l) (hy : y ∈ l) (hne : x ≠ y) : 2 ≤ l.length := by
  cases l with
  | nil => simp at hx
  | cons a t =>
    cases t with
    | nil =>
      simp only [List.mem_singleton] at hx hy
      exact absurd (hx.trans hy.symm) hne
    | cons b u => simp [Nat.succ_le_succ, Nat.le_add_left]

theorem orderedInsert_append_last (r : Contact → Contact → Prop) [DecidableRel r]
    (x : Contact) (l : List Contact) (h : ∀ y ∈ l, ¬ r x y) :
    List.orderedInsert r x l = l ++ [x] := by
  induction l with
  | nil => rfl
  | cons a t ih =>
    simp only [List.orderedInsert]
    rw [if_neg (h a (List.mem_cons_self a t))]
    rw [ih fun y hy => h y (List.mem_cons_of_mem _ hy)]
    rfl

theorem orderedInsert_congr (r q : Contact → Contact → Prop) [DecidableRel r] [DecidableRel q]
    (x : Contact) (l : List Contact) (h : ∀ b ∈ l, r x b ↔ q x b) :
    List.orderedInsert r x l = List.orderedInsert q x l := by
  induction l with
  | nil => rfl
  | cons a t ih =>
    simp only [List.orderedInsert]
    exact if_congr (h a (List.mem_cons_self a t)) rfl
      (congrArg (fun l => a :: l) (ih fun b hb => h b (List.mem_cons_of_mem _ hb)))

theorem insertionSort_congr (r q : Contact → Contact → Prop) [DecidableRel r] [DecidableRel q]
    (l : List Contact) (h : ∀ a ∈ l, ∀ b ∈ l, r a b ↔ q a b) :
    List.insertionSort r l = List.insertionSort q l := by
  induction l with
  | nil => rfl
  | cons a t ih =>
    simp only [List.insertionSort]
    rw [ih fun x hx y hy => h x (List.mem_cons_of_mem _ hx) y (List.mem_cons_of_mem _ hy)]
    exact orderedInsert_congr r q a _ fun b hb => by
      have hbt : b ∈ t := (List.mem_insertionSort q).1 hb
      exact h a (List.mem_cons_self a t) b (List.mem_cons_of_mem _ hbt)

/-! ## Pointwise characterization of the merge updates -/

theorem demoteUpd_fields (oid pid now : Nat) (c : Contact) :
    (demoteUpd oid pid now c).id = c.id ∧ (demoteUpd oid pid now c).email = c.email ∧
    (demoteUpd oid pid now c).phoneNumber = c.phoneNumber ∧
    (demoteUpd oid pid now c).createdAt = c.createdAt ∧
    (demoteUpd oid pid now c).deletedAt = c.deletedAt := by
  unfold demoteUpd
  split <;> simp

theorem reparentUpd_fields (oid pid now : Nat) (c : Contact) :
    (reparentUpd oid pid now c).id = c.id ∧ (reparentUpd oid pid now c).email = c.email ∧
    (reparentUpd oid pid now c).phoneNumber = c.phoneNumber ∧
    (reparentUpd oid pid now c).createdAt = c.createdAt ∧
    (reparentUpd oid pid now c).deletedAt = c.deletedAt ∧
    (reparentUpd oid pid now c).linkPrecedence = c.linkPrecedence := by
  unfold reparentUpd
  split <;> simp

theorem mergeContact_fields (oid : Nat) (pids : List Nat) (now : Nat) (c : Contact) :
    (mergeContact oid pids now c).id = c.id ∧ (mergeContact oid pids now c).email = c.email ∧
    (mergeContact oid pids now c).phoneNumber = c.phoneNumber ∧
    (mergeContact oid pids now c).createdAt = c.createdAt ∧
    (mergeContact oid pids now c).deletedAt = c.deletedAt := by
  induction pids generalizing c with
  | nil => exact ⟨rfl, rfl, rfl, rfl, rfl⟩
  | cons p rest ih =>
    have hstep := demoteUpd_fields oid p now c
    have hstep2 := reparentUpd_fields oid p now (demoteUpd oid p now c)
    have hrest := ih (demoteStep oid p now c)
    unfold demoteStep at hrest
    refine ⟨?_, ?_, ?_, ?_, ?_⟩
    · exact hrest.1.trans (hstep2.1.trans hstep.1)
    · exact hrest.2.1.trans (hstep2.2.1.trans hstep.2.1)
    · exact hrest.2.2.1.trans (hstep2.2.2.1.trans hstep.2.2.1)
    · exact hrest.2.2.2.1.trans (hstep2.2.2.2.1.trans hstep.2.2.2.1)
    · exact hrest.2.2.2.2.trans (hstep2.2.2.2.2.1.trans hstep.2.2.2.2)

theorem demoteStep_skip (oid p now : Nat) (c : Contact)
    (h1 : c.id ≠ p) (h2 : c.linkedId ≠ some p) : demoteStep oid p now c = c := by
  unfold demoteStep demoteUpd
  rw [if_neg h1]
  unfold reparentUpd
  rw [if_neg (fun h => h2 h.1)]

theorem mergeContact_untouched (oid : Nat) (pids : List Nat) (now : Nat) (c : Contact)
    (hid : c.id ∉ pids) (hlk : ∀ j, c.linkedId = some j → j ∉ pids) :
    mergeContact oid pids now c = c := by
  induction pids with
  | nil => rfl
  | cons p rest ih =>
    have h1 : c.id ≠ p := fun h => hid (h ▸ List.mem_cons_self p rest)
    have h2 : c.linkedId ≠ some p := fun h => hlk p h (List.mem_cons_self p rest)
    show mergeContact oid rest now (demoteStep oid p now c) = c
    rw [demoteStep_skip oid p now c h1 h2]
    exact ih (fun h => hid (List.mem_cons_of_mem _ h))
      (fun j hj hm => hlk j hj (List.mem_cons_of_mem _ hm))

theorem mergeContact_demoted (oid : Nat) (pids : List Nat) (now : Nat) (c : Contact)
    (hnd : pids.Nodup) (ho : oid ∉ pids) (hid : c.id ∈ pids) (hlk : c.linkedId = none) :
    mergeContact oid pids now c =
      { c with linkPrecedence := Prec.secondary, linkedId := some oid, updatedAt := now } := by
  induction pids with
  | nil => simp at hid
  | cons p rest ih =>
    rw [List.nodup_cons] at hnd
    have horest : oid ∉ rest := fun h => ho (List.mem_cons_of_mem _ h)
    have hop : oid ≠ p := fun h => ho (h ▸ List.mem_cons_self p rest)
    by_cases hcp : c.id = p
    · have hstep : demoteStep oid p now c =
          { c with linkPrecedence := Prec.secondary, linkedId := some oid, updatedAt := now } := by
        unfold demoteStep demoteUpd
        rw [if_pos hcp]
        unfold reparentUpd
        rw [if_neg (fun h => hop (Option.some.inj h.1))]
      show mergeContact oid rest now (demoteStep oid p now c) = _
      rw [hstep]
      exact mergeContact_untouched oid rest now _
        (by simpa [hcp] using hnd.1)
        (fun j hj hm => by
          simp only at hj
          exact horest ((Option.some.inj hj) ▸ hm))
    · have hcr : c.id ∈ rest := by
        rcases List.mem_cons.1 hid with h | h
        · exact absurd h hcp
        · exact h
      have hstep : demoteStep oid p now c = c :=
        demoteStep_skip oid p now c hcp (by rw [hlk]; exact fun h => Option.noConfusion h)
      show mergeContact oid rest now (demoteStep oid p now c) = _
      rw [hstep]
      exact ih hnd.2 horest hcr

theorem mergeContact_reparented (oid : Nat) (pids : List Nat) (now : Nat) (c : Contact) (j : Nat)
    (ho : oid ∉ pids) (hid : c.id ∉ pids) (hj : c.linkedId = some j) (hjm : j ∈ pids) :
    mergeContact oid pids now c = { c with linkedId := some oid, updatedAt := now } := by
  induction pids with
  | nil => simp at hjm
  | cons p rest ih =>
    have h1 : c.id ≠ p := fun h => hid (h ▸ List.mem_cons_self p rest)
    have horest : oid ∉ rest := fun h => ho (List.mem_cons_of_mem _ h)
    have hidrest : c.id ∉ rest := fun h => hid (List.mem_cons_of_mem _ h)
    by_cases hjp : j = p
    · have hstep : demoteStep oid p now c = { c with linkedId := some oid, updatedAt := now } := by
        unfold demoteStep demoteUpd
        rw [if_neg h1]
        unfold reparentUpd
        rw [if_pos ⟨by rw [hj, hjp], h1⟩]
      show mergeContact oid rest now (demoteStep oid p now c) = _
      rw [hstep]
      exact mergeContact_untouched oid rest now _ (by simpa using hidrest)
        (fun k hk hm => by
          simp only at hk
          exact horest ((Option.some.inj hk) ▸ hm))
    · have hstep : demoteStep oid p now c = c :=
        demoteStep_skip oid p now c h1 (by rw [hj]; exact fun h => hjp (Option.some.inj h))
      show mergeContact oid rest now (demoteStep oid p now c) = _
      rw [hstep]
      have hjrest : j ∈ rest := by
        rcases List.mem_cons.1 hjm with h | h
        · exact absurd h hjp
        · exact h
      exact ih horest hidrest hjrest

theorem applyMergeAll_eq_map (oid : Nat) (pids : List Nat) (now : Nat) (s : List Contact) :
    applyMergeAll oid pids now s = s.map (mergeContact oid pids now) := by
  induction pids generalizing s with
  | nil =>
    show s = s.map (mergeContact oid [] now)
    rw [show mergeContact oid [] now = id from funext fun c => rfl, List.map_id]
  | cons p rest ih =>
    show applyMergeAll oid (p :: rest) now s = _
    unfold applyMergeAll mergeAtomicOps
    rw [List.flatMap_cons, List.foldl_append]
    have hpref : [List.map (demoteUpd oid p now),
        List.map (reparentUpd oid p now)].foldl (fun st f => f st) s =
        s.map (demoteStep oid p now) := by
      show (s.map (demoteUpd oid p now)).map (reparentUpd oid p now) = _
      rw [List.map_map]
      rfl
    rw [hpref]
    have := ih (s.map (demoteStep oid p now))
    unfold applyMergeAll mergeAtomicOps at this
    rw [this, List.map_map]
    rfl

/-! ## Stable sort head and chain-order lemmas -/

theorem firstMinByCreated_cons (c : Contact) (cs : List Contact) :
    firstMinByCreated (c :: cs) =
      match firstMinByCreated cs with
      | none => some c
      | some m => if c.createdAt ≤ m.createdAt then some c else some m := rfl

theorem firstMinByCreated_eq_none (l : List Contact) :
    firstMinByCreated l = none ↔ l = [] := by
  cases l with
  | nil => simp [firstMinByCreated]
  | cons c cs =>
    rw [firstMinByCreated_cons]
    constructor
    · intro h
      cases hcs : firstMinByCreated cs with
      | none => rw [hcs] at h; exact Option.noConfusion h
      | some m =>
        rw [hcs] at h
        dsimp only at h
        by_cases hle : c.createdAt ≤ m.createdAt
        · rw [if_pos hle] at h; exact Option.noConfusion h
        · rw [if_neg hle] at h; exact Option.noConfusion h
    · intro h
      exact (List.cons_ne_nil c cs h).elim

theorem firstMinByCreated_spec (l : List Contact) (m : Contact)
    (h : firstMinByCreated l = some m) : m ∈ l ∧ ∀ q ∈ l, m.createdAt ≤ q.createdAt := by
  induction l generalizing m with
  | nil => exact Option.noConfusion h
  | cons c cs ih =>
    rw [firstMinByCreated_cons] at h
    cases hcs : firstMinByCreated cs with
    | none =>
      rw [hcs] at h
      dsimp only at h
      injection h with h
      subst h
      have hnil : cs = [] := (firstMinByCreated_eq_none cs).1 hcs
      subst hnil
      refine ⟨List.mem_cons_self _ _, fun q hq => ?_⟩
      rcases List.mem_cons.1 hq with rfl | hq
      · exact Nat.le_refl _
      · simp at hq
    | some m2 =>
      rw [hcs] at h
      dsimp only at h
      have hm2 := ih m2 hcs
      by_cases hle : c.createdAt ≤ m2.createdAt
      · rw [if_pos hle] at h
        injection h with h
        subst h
        refine ⟨List.mem_cons_self _ _, fun q hq => ?_⟩
        rcases List.mem_cons.1 hq with rfl | hq
        · exact Nat.le_refl _
        · exact Nat.le_trans hle (hm2.2 q hq)
      · rw [if_neg hle] at h
        injection h with h
        subst h
        refine ⟨List.mem_cons_of_mem _ hm2.1, fun q hq => ?_⟩
        rcases List.mem_cons.1 hq with rfl | hq
        · exact Nat.le_of_lt (Nat.lt_of_not_le hle)
        · exact hm2.2 q hq

theorem head?_insertionSort_createdLE (l : List Contact) :
    (List.insertionSort createdLE l).head? = firstMinByCreated l := by
  induction l with
  | nil => rfl
  | cons c cs ih =>
    show (List.orderedInsert createdLE c (List.insertionSort createdLE cs)).head? = _
    rw [firstMinByCreated_cons]
    cases hs : List.insertionSort createdLE cs with
    | nil =>
      have hcs : cs = [] := by
        have hp := List.perm_insertionSort createdLE cs
        rw [hs] at hp
        exact hp.nil_eq.symm
      subst hcs
      rfl
    | cons m rest =>
      have hm : firstMinByCreated cs = some m := by
        rw [← ih, hs]
        rfl
      rw [hm]
      dsimp only
      by_cases hc : createdLE c m
      · have hc' : c.createdAt ≤ m.createdAt := hc
        rw [List.orderedInsert, if_pos hc, if_pos hc']
        rfl
      · have hc' : ¬ c.createdAt ≤ m.createdAt := hc
        rw [List.orderedInsert, if_neg hc, if_neg hc']
        rfl

theorem insertionSort_chainLE_cons_max (x : Contact) (l : List Contact)
    (h : ∀ y ∈ l, ¬ chainLE x y) :
    List.insertionSort chainLE (x :: l) = List.insertionSort chainLE l ++ [x] := by
  show List.orderedInsert chainLE x (List.insertionSort chainLE l) = _
  exact orderedInsert_append_last chainLE x _ fun y hy =>
    h y ((List.mem_insertionSort chainLE).1 hy)

/-! ## Chain resolution under well-formedness -/

theorem chainRoots_subset (s : List Contact) (n : Nat) (x : Contact)
    (h : x ∈ chainRoots s n) : x ∈ s :=
  (List.mem_filter.1 h).1

theorem chainLevels_subset (s : List Contact) (fuel : Nat) (frontier : List Contact)
    (x : Contact) (h : x ∈ chainLevels s fuel frontier) : x ∈ s := by
  induction fuel generalizing frontier with
  | zero => simp [chainLevels] at h
  | succ fuel ih =>
    simp only [chainLevels] at h
    split at h
    · simp at h
    · rcases List.mem_append.1 h with h | h
      · exact (List.mem_filter.1 h).1
      · exact ih _ h

theorem chain_subset (s : List Contact) (n : Nat) (x : Contact)
    (h : x ∈ getAllContactsInChain n s) : x ∈ s := by
  have hx : x ∈ chainUnsorted n s := (List.mem_insertionSort chainLE).1 h
  rcases List.mem_append.1 hx with h | h
  · exact chainRoots_subset s n x h
  · exact chainLevels_subset s _ _ x h

theorem mem_chainSecondaries (s : List Contact) (n : Nat) (x : Contact) :
    x ∈ chainSecondaries n s ↔ x ∈ s ∧ x.deletedAt = none ∧ x.linkedId = some n := by
  unfold chainSecondaries
  rw [List.mem_filter]
  simp [Bool.and_eq_true, beq_iff_eq]

theorem chainRoots_eq (s : List Contact) (P : Contact)
    (hnd : (s.map (fun c => c.id)).Nodup)
    (hdel : ∀ c ∈ s, c.deletedAt = none)
    (hiff : ∀ c ∈ s, (c.linkPrecedence = Prec.primary ↔ c.linkedId = none))
    (hP : P ∈ s) (hprim : P.linkPrecedence = Prec.primary) :
    chainRoots s P.id = [P] := by
  unfold chainRoots
  apply filter_eq_singleton_of_unique s _ P hnd hP
  · simp [hdel P hP, hprim]
  · intro y hy hpy
    simp only [Bool.and_eq_true, Bool.or_eq_true, beq_iff_eq] at hpy
    have hyprim : y.linkPrecedence = Prec.primary := hpy.2
    have hynone : y.linkedId = none := (hiff y hy).1 hyprim
    rcases hpy.1.1 with hid | hlk
    · exact List.inj_on_of_nodup_map hnd hy hP hid
    · rw [hynone] at hlk
      exact Option.noConfusion hlk

theorem chainChildren_single (s : List Contact) (P : Contact) :
    chainChildren s [P] = chainSecondaries P.id s := by
  unfold chainChildren chainSecondaries
  apply List.filter_congr
  intro c _
  simp [List.any]

theorem chainChildren_secondaries_nil (s : List Contact) (n : Nat)
    (hnd : (s.map (fun c => c.id)).Nodup)
    (hiff : ∀ c ∈ s, (c.linkPrecedence = Prec.primary ↔ c.linkedId = none))
    (htgt : ∀ c ∈ s, ∀ j, c.linkedId = some j →
      ∃ d, d ∈ s ∧ d.id = j ∧ d.linkPrecedence = Prec.primary) :
    chainChildren s (chainSecondaries n s) = [] := by
  unfold chainChildren
  rw [List.filter_eq_nil_iff]
  intro c hc hcond
  rw [Bool.and_eq_true, List.any_eq_true] at hcond
  obtain ⟨-, f, hf, hlk⟩ := hcond
  rw [beq_iff_eq] at hlk
  have hfmem := (mem_chainSecondaries s n f).1 hf
  have hfsec : f.linkPrecedence ≠ Prec.primary := by
    intro hp
    have := (hiff f hfmem.1).1 hp
    rw [hfmem.2.2] at this
    exact Option.noConfusion this
  obtain ⟨d, hd, hdid, hdprim⟩ := htgt c hc f.id hlk
  have : d = f := List.inj_on_of_nodup_map hnd hd hfmem.1 hdid
  subst this
  exact hfsec hdprim

theorem chainLevels_top (s : List Contact) (P : Contact)
    (hnd : (s.map (fun c => c.id)).Nodup)
    (hdel : ∀ c ∈ s, c.deletedAt = none)
    (hiff : ∀ c ∈ s, (c.linkPrecedence = Prec.primary ↔ c.linkedId = none))
    (htgt : ∀ c ∈ s, ∀ j, c.linkedId = some j →
      ∃ d, d ∈ s ∧ d.id = j ∧ d.linkPrecedence = Prec.primary)
    (hP : P ∈ s) (hprim : P.linkPrecedence = Prec.primary) :
    chainLevels s s.length (chainRoots s P.id) = chainSecondaries P.id s := by
  rw [chainRoots_eq s P hnd hdel hiff hP hprim]
  have hch : chainChildren s [P] = chainSecondaries P.id s := chainChildren_single s P
  cases hsec : chainSecondaries P.id s with
  | nil =>
    have hlen : 1 ≤ s.length := List.length_pos.2 (List.ne_nil_of_mem hP)
    obtain ⟨m, hm⟩ := Nat.exists_eq_add_of_le hlen
    rw [hm]
    have h1m : 1 + m = m + 1 := by omega
    rw [h1m]
    simp only [chainLevels]
    rw [hch, hsec]
    simp
  | cons c cs =>
    have hcmem := (mem_chainSecondaries s P.id c).1 (hsec ▸ List.mem_cons_self c cs)
    have hcP : c ≠ P := by
      intro h
      subst h
      have := (hiff c hcmem.1).1 hprim
      rw [hcmem.2.2] at this
      exact Option.noConfusion this
    have hlen : 2 ≤ s.length := two_mem_le_length s c P hcmem.1 hP hcP
    obtain ⟨m, hm⟩ := Nat.exists_eq_add_of_le hlen
    rw [hm]
    show chainLevels s (2 + m) [P] = _
    have h2m : 2 + m = (1 + m) + 1 := by omega
    rw [h2m]
    simp only [chainLevels]
    rw [hch, hsec]
    have : (c :: cs).isEmpty = false := rfl
    rw [this]
    simp only [Bool.false_eq_true, if_false]
    have h1m : 1 + m = m + 1 := by omega
    rw [h1m]
    simp only [chainLevels]
    rw [← hsec, chainChildren_secondaries_nil s P.id hnd hiff htgt]
    simp

theorem precKey_eq_zero (c : Contact) (h : c.linkPrecedence ≠ Prec.primary) :
    precKey c.linkPrecedence = 0 := by
  cases hc : c.linkPrecedence with
  | primary => exact absurd hc h
  | secondary => rfl

theorem chainUnsorted_eq (s : List Contact) (P : Contact)
    (hnd : (s.map (fun c => c.id)).Nodup)
    (hdel : ∀ c ∈ s, c.deletedAt = none)
    (hiff : ∀ c ∈ s, (c.linkPrecedence = Prec.primary ↔ c.linkedId = none))
    (htgt : ∀ c ∈ s, ∀ j, c.linkedId = some j →
      ∃ d, d ∈ s ∧ d.id = j ∧ d.linkPrecedence = Prec.primary)
    (hP : P ∈ s) (hprim : P.linkPrecedence = Prec.primary) :
    chainUnsorted P.id s = P :: chainSecondaries P.id s := by
  unfold chainUnsorted
  rw [chainLevels_top s P hnd hdel hiff htgt hP hprim,
    chainRoots_eq s P hnd hdel hiff hP hprim]
  rfl

theorem sec_not_primary (s : List Contact) (P : Contact) (y : Contact)
    (hiff : ∀ c ∈ s, (c.linkPrecedence = Prec.primary ↔ c.linkedId = none))
    (hy : y ∈ chainSecondaries P.id s) : y.linkPrecedence ≠ Prec.primary := by
  have hmem := (mem_chainSecondaries s P.id y).1 hy
  intro hp
  have := (hiff y hmem.1).1 hp
  rw [hmem.2.2] at this
  exact Option.noConfusion this

theorem getAllContactsInChain_eq (s : List Contact) (P : Contact)
    (hnd : (s.map (fun c => c.id)).Nodup)
    (hdel : ∀ c ∈ s, c.deletedAt = none)
    (hiff : ∀ c ∈ s, (c.linkPrecedence = Prec.primary ↔ c.linkedId = none))
    (htgt : ∀ c ∈ s, ∀ j, c.linkedId = some j →
      ∃ d, d ∈ s ∧ d.id = j ∧ d.linkPrecedence = Prec.primary)
    (hP : P ∈ s) (hprim : P.linkPrecedence = Prec.primary) :
    getAllContactsInChain P.id s =
      List.insertionSort createdLE (chainSecondaries P.id s) ++ [P] := by
  unfold getAllContactsInChain
  rw [chainUnsorted_eq s P hnd hdel hiff htgt hP hprim]
  rw [insertionSort_chainLE_cons_max P _ (fun y hy => by
    have hy0 : precKey y.linkPrecedence = 0 :=
      precKey_eq_zero y (sec_not_primary s P y hiff hy)
    unfold chainLE
    rw [hy0, hprim]
    have h1 : precKey Prec.primary = 1 := rfl
    rw [h1]
    omega)]
  congr 1
  apply insertionSort_congr
  intro a ha b hb
  have ha0 : precKey a.linkPrecedence = 0 := precKey_eq_zero a (sec_not_primary s P a hiff ha)
  have hb0 : precKey b.linkPrecedence = 0 := precKey_eq_zero b (sec_not_primary s P b hiff hb)
  unfold chainLE createdLE
  rw [ha0, hb0]
  omega

theorem mem_chain_iff (s : List Contact) (P : Contact)
    (hnd : (s.map (fun c => c.id)).Nodup)
    (hdel : ∀ c ∈ s, c.deletedAt = none)
    (hiff : ∀ c ∈ s, (c.linkPrecedence = Prec.primary ↔ c.linkedId = none))
    (htgt : ∀ c ∈ s, ∀ j, c.linkedId = some j →
      ∃ d, d ∈ s ∧ d.id = j ∧ d.linkPrecedence = Prec.primary)
    (hP : P ∈ s) (hprim : P.linkPrecedence = Prec.primary) (x : Contact) :
    x ∈ getAllContactsInChain P.id s ↔ x = P ∨ x ∈ chainSecondaries P.id s := by
  rw [getAllContactsInChain_eq s P hnd hdel hiff htgt hP hprim, List.mem_append,
    List.mem_insertionSort, List.mem_singleton]
  tauto

theorem chain_filter_primary (s : List Contact) (P : Contact)
    (hnd : (s.map (fun c => c.id)).Nodup)
    (hdel : ∀ c ∈ s, c.deletedAt = none)
    (hiff : ∀ c ∈ s, (c.linkPrecedence = Prec.primary ↔ c.linkedId = none))
    (htgt : ∀ c ∈ s, ∀ j, c.linkedId = some j →
      ∃ d, d ∈ s ∧ d.id = j ∧ d.linkPrecedence = Prec.primary)
    (hP : P ∈ s) (hprim : P.linkPrecedence = Prec.primary) :
    (getAllContactsInChain P.id s).filter
      (fun c => c.linkPrecedence == Prec.primary) = [P] := by
  rw [getAllContactsInChain_eq s P hnd hdel hiff htgt hP hprim, List.filter_append]
  have h1 : (List.insertionSort createdLE (chainSecondaries P.id s)).filter
      (fun c => c.linkPrecedence == Prec.primary) = [] := by
    rw [List.filter_eq_nil_iff]
    intro y hy
    have := sec_not_primary s P y hiff ((List.mem_insertionSort createdLE).1 hy)
    simp [this]
  rw [h1]
  simp [hprim]

theorem find?_primary_chain (s : List Contact) (P : Contact)
    (hnd : (s.map (fun c => c.id)).Nodup)
    (hdel : ∀ c ∈ s, c.deletedAt = none)
    (hiff : ∀ c ∈ s, (c.linkPrecedence = Prec.primary ↔ c.linkedId = none))
    (htgt : ∀ c ∈ s, ∀ j, c.linkedId = some j →
      ∃ d, d ∈ s ∧ d.id = j ∧ d.linkPrecedence = Prec.primary)
    (hP : P ∈ s) (hprim : P.linkPrecedence = Prec.primary) :
    (getAllContactsInChain P.id s).find?
      (fun c => c.linkPrecedence == Prec.primary) = some P := by
  rw [getAllContactsInChain_eq s P hnd hdel hiff htgt hP hprim]
  rw [find?_append_of_none _ _ _ (fun y hy => by
    have := sec_not_primary s P y hiff ((List.mem_insertionSort createdLE).1 hy)
    simp [this])]
  simp [hprim]

/-! ## Preservation of well-formedness by one request -/

theorem orNull_ne_blank (o : Option String) : orNull o ≠ some "" := by
  unfold orNull truthy
  cases o with
  | none => simp
  | some s =>
    by_cases h : s = ""
    · subst h
      simp
    · simp only [bne_iff_ne, ne_eq, h, not_false_eq_true, if_true]
      intro hc
      exact h (Option.some.inj hc)

theorem WF_append (s : List Contact) (nid : Nat) (c : Contact)
    (hwf : WF s nid) (hid : c.id = nid) (hdel : c.deletedAt = none)
    (hiff : c.linkPrecedence = Prec.primary ↔ c.linkedId = none)
    (htgt : ∀ j, c.linkedId = some j →
      ∃ d, d ∈ s ∧ d.id = j ∧ d.linkPrecedence = Prec.primary)
    (hem : c.email ≠ some "") (hph : c.phoneNumber ≠ some "") :
    WF (s ++ [c]) (nid + 1) := by
  obtain ⟨wnd, wdel, wiff, wtgt, wbound, wblank⟩ := hwf
  refine ⟨?_, ?_, ?_, ?_, ?_, ?_⟩
  · rw [List.map_append]
    rw [List.nodup_append]
    refine ⟨wnd, List.nodup_singleton _, ?_⟩
    intro a ha hb
    simp only [List.map_cons, List.map_nil, List.mem_singleton] at hb
    subst hb
    obtain ⟨d, hd, hdid⟩ := List.mem_map.1 ha
    have := wbound d hd
    omega
  · intro x hx
    rcases List.mem_append.1 hx with h | h
    · exact wdel x h
    · rw [List.mem_singleton] at h
      subst h
      exact hdel
  · intro x hx
    rcases List.mem_append.1 hx with h | h
    · exact wiff x h
    · rw [List.mem_singleton] at h
      subst h
      exact hiff
  · intro x hx j hj
    rcases List.mem_append.1 hx with h | h
    · obtain ⟨d, hd, hdid, hdprim⟩ := wtgt x h j hj
      exact ⟨d, List.mem_append.2 (Or.inl hd), hdid, hdprim⟩
    · rw [List.mem_singleton] at h
      subst h
      obtain ⟨d, hd, hdid, hdprim⟩ := htgt j hj
      exact ⟨d, List.mem_append.2 (Or.inl hd), hdid, hdprim⟩
  · intro x hx
    rcases List.mem_append.1 hx with h | h
    · have := wbound x h
      omega
    · rw [List.mem_singleton] at h
      subst h
      omega
  · intro x hx
    rcases List.mem_append.1 hx with h | h
    · exact wblank x h
    · rw [List.mem_singleton] at h
      subst h
      exact ⟨hem, hph⟩

theorem identifyNoMatch_WF (s : List Contact) (nid : Nat) (req : Req) (now : Nat)
    (hwf : WF s nid) :
    WF (identifyNoMatch s nid req now).1 (identifyNoMatch s nid req now).2.1 := by
  unfold identifyNoMatch
  exact WF_append s nid _ hwf rfl rfl (by simp) (by simp)
    (orNull_ne_blank req.email) (orNull_ne_blank req.phoneNumber)

theorem identifySingleChain_WF (s : List Contact) (nid : Nat) (req : Req) (now : Nat)
    (contacts : List Contact) (hwf : WF s nid) (hsub : ∀ x ∈ contacts, x ∈ s) :
    WF (identifySingleChain s nid req now contacts).1
      (identifySingleChain s nid req now contacts).2.1 := by
  simp only [identifySingleChain]
  by_cases hb : (!hasEmailVal contacts req.email || !hasPhoneVal contacts req.phoneNumber) = true
  · rw [if_pos hb]
    cases hfind : contacts.find? (fun c => c.linkPrecedence == Prec.primary) with
    | none => exact hwf
    | some pc =>
      have hpcmem : pc ∈ s := hsub pc (List.mem_of_find?_eq_some hfind)
      have hpcprim : pc.linkPrecedence = Prec.primary := by
        have := List.find?_some hfind
        rwa [beq_iff_eq] at this
      exact WF_append s nid _ hwf rfl rfl
        (by constructor
            · intro h
              exact absurd h (by simp)
            · intro h
              exact absurd h (by simp))
        (fun j hj => by
          simp only at hj
          exact ⟨pc, hpcmem, Option.some.inj hj, hpcprim⟩)
        (orNull_ne_blank req.email) (orNull_ne_blank req.phoneNumber)
  · rw [if_neg hb]
    exact hwf

theorem WF_applyMergeAll (s : List Contact) (nid now : Nat) (oldest : Contact)
    (pids : List Nat) (hwf : WF s nid) (hold : oldest ∈ s)
    (holdprim : oldest.linkPrecedence = Prec.primary)
    (hpids : ∀ pid ∈ pids, ∃ q, q ∈ s ∧ q.id = pid ∧ q.linkPrecedence = Prec.primary)
    (hnd : pids.Nodup) (ho : oldest.id ∉ pids) :
    WF (applyMergeAll oldest.id pids now s) nid := by
  obtain ⟨wnd, wdel, wiff, wtgt, wbound, wblank⟩ := hwf
  rw [applyMergeAll_eq_map]
  have holdlk : oldest.linkedId = none := (wiff oldest hold).1 holdprim
  have holdF : mergeContact oldest.id pids now oldest = oldest :=
    mergeContact_untouched _ _ _ _ ho (fun j hj _ => by
      rw [holdlk] at hj
      exact Option.noConfusion hj)
  have hmapid : (s.map (mergeContact oldest.id pids now)).map (fun c => c.id) =
      s.map (fun c => c.id) := by
    rw [List.map_map]
    exact List.map_congr_left fun c _ => (mergeContact_fields oldest.id pids now c).1
  refine ⟨?_, ?_, ?_, ?_, ?_, ?_⟩
  · rw [hmapid]
    exact wnd
  · intro x hx
    obtain ⟨c, hc, rfl⟩ := List.mem_map.1 hx
    rw [(mergeContact_fields oldest.id pids now c).2.2.2.2]
    exact wdel c hc
  · intro x hx
    obtain ⟨c, hc, rfl⟩ := List.mem_map.1 hx
    by_cases h1 : c.id ∈ pids
    · obtain ⟨q, hq, hqid, hqprim⟩ := hpids c.id h1
      have hqc : q = c := List.inj_on_of_nodup_map wnd hq hc hqid
      subst hqc
      have hclk : q.linkedId = none := (wiff q hq).1 hqprim
      rw [mergeContact_demoted _ _ _ _ hnd ho h1 hclk]
      constructor
      · intro h
        exact absurd h (by simp)
      · intro h
        exact absurd h (by simp)
    · by_cases h2 : ∃ j, c.linkedId = some j ∧ j ∈ pids
      · obtain ⟨j, hj, hjm⟩ := h2
        rw [mergeContact_reparented _ _ _ _ j ho h1 hj hjm]
        have hcsec : c.linkPrecedence ≠ Prec.primary := by
          intro hp
          have := (wiff c hc).1 hp
          rw [hj] at this
          exact Option.noConfusion this
        constructor
        · intro h
          exact absurd h hcsec
        · intro h
          exact absurd h (by simp)
      · rw [mergeContact_untouched _ _ _ _ h1 (fun j hj hm => h2 ⟨j, hj, hm⟩)]
        exact wiff c hc
  · intro x hx j hj
    obtain ⟨c, hc, rfl⟩ := List.mem_map.1 hx
    by_cases h1 : c.id ∈ pids
    · obtain ⟨q, hq, hqid, hqprim⟩ := hpids c.id h1
      have hqc : q = c := List.inj_on_of_nodup_map wnd hq hc hqid
      subst hqc
      have hclk : q.linkedId = none := (wiff q hq).1 hqprim
      rw [mergeContact_demoted _ _ _ _ hnd ho h1 hclk] at hj
      simp only at hj
      refine ⟨mergeContact oldest.id pids now oldest, List.mem_map_of_mem _ hold, ?_, ?_⟩
      · rw [holdF]
        exact Option.some.inj hj
      · rw [holdF]
        exact holdprim
    · by_cases h2 : ∃ k, c.linkedId = some k ∧ k ∈ pids
      · obtain ⟨k, hk, hkm⟩ := h2
        rw [mergeContact_reparented _ _ _ _ k ho h1 hk hkm] at hj
        simp only at hj
        refine ⟨mergeContact oldest.id pids now oldest, List.mem_map_of_mem _ hold, ?_, ?_⟩
        · rw [holdF]
          exact Option.some.inj hj
        · rw [holdF]
          exact holdprim
      · rw [mergeContact_untouched _ _ _ _ h1 (fun k hk hm => h2 ⟨k, hk, hm⟩)] at hj
        obtain ⟨d, hd, hdid, hdprim⟩ := wtgt c hc j hj
        have hdnp : d.id ∉ pids := by
          rw [hdid]
          intro hmem
          exact h2 ⟨j, hj, hmem⟩
        have hdlk : d.linkedId = none := (wiff d hd).1 hdprim
        have hdF : mergeContact oldest.id pids now d = d :=
          mergeContact_untouched _ _ _ _ hdnp (fun k hk _ => by
            rw [hdlk] at hk
            exact Option.noConfusion hk)
        refine ⟨mergeContact oldest.id pids now d, List.mem_map_of_mem _ hd, ?_, ?_⟩
        · rw [hdF]
          exact hdid
        · rw [hdF]
          exact hdprim
  · intro x hx
    obtain ⟨c, hc, rfl⟩ := List.mem_map.1 hx
    rw [(mergeContact_fields oldest.id pids now c).1]
    exact wbound c hc
  · intro x hx
    obtain ⟨c, hc, rfl⟩ := List.mem_map.1 hx
    rw [(mergeContact_fields oldest.id pids now c).2.1,
      (mergeContact_fields oldest.id pids now c).2.2.1]
    exact wblank c hc

theorem mem_findContacts (e p : Option String) (s : List Contact) (m : Contact)
    (h : m ∈ findContactsByEmailOrPhone e p s) : m ∈ s :=
  (List.mem_filter.1 h).1

theorem prims_of_cids (s : List Contact)
    (hnd : (s.map (fun c => c.id)).Nodup)
    (hdel : ∀ c ∈ s, c.deletedAt = none)
    (hiff : ∀ c ∈ s, (c.linkPrecedence = Prec.primary ↔ c.linkedId = none))
    (htgt : ∀ c ∈ s, ∀ j, c.linkedId = some j →
      ∃ d, d ∈ s ∧ d.id = j ∧ d.linkPrecedence = Prec.primary) :
    ∀ cids : List (Option Nat),
    (∀ cid ∈ cids, ∃ P, P ∈ s ∧ P.linkPrecedence = Prec.primary ∧ cid = some P.id) →
    ∃ Ps : List Contact,
      ((cids.map (fun cid => match cid with
        | some n => getAllContactsInChain n s
        | none => [])).flatten).filter (fun c => c.linkPrecedence == Prec.primary) = Ps ∧
      (∀ P ∈ Ps, P ∈ s ∧ P.linkPrecedence = Prec.primary) ∧
      Ps.map (fun c => some c.id) = cids := by
  intro cids
  induction cids with
  | nil =>
    intro _
    exact ⟨[], by simp, by simp, by simp⟩
  | cons cid rest ih =>
    intro hall
    obtain ⟨P, hP, hprim, hcid⟩ := hall cid (List.mem_cons_self cid rest)
    obtain ⟨Ps, hPs, hPmem, hPcids⟩ := ih fun c hc => hall c (List.mem_cons_of_mem _ hc)
    refine ⟨P :: Ps, ?_, ?_, ?_⟩
    · rw [List.map_cons, List.flatten_cons, List.filter_append, hPs, hcid]
      have : (getAllContactsInChain P.id s).filter
          (fun c => c.linkPrecedence == Prec.primary) = [P] :=
        chain_filter_primary s P hnd hdel hiff htgt hP hprim
      rw [this]
      rfl
    · intro Q hQ
      rcases List.mem_cons.1 hQ with rfl | hQ
      · exact ⟨hP, hprim⟩
      · exact hPmem Q hQ
    · rw [List.map_cons, hPcids, hcid]

theorem identifyMerge_WF (s : List Contact) (nid : Nat) (req : Req) (now : Nat)
    (cids : List (Option Nat)) (hwf : WF s nid) (hndc : cids.Nodup)
    (hcids : ∀ cid ∈ cids, ∃ P, P ∈ s ∧ P.linkPrecedence = Prec.primary ∧ cid = some P.id) :
    WF (identifyMerge s nid req now ((cids.map (fun cid => match cid with
        | some n => getAllContactsInChain n s
        | none => [])).flatten)).1
      (identifyMerge s nid req now ((cids.map (fun cid => match cid with
        | some n => getAllContactsInChain n s
        | none => [])).flatten)).2.1 := by
  obtain ⟨Ps, hPs, hPmem, hPcids⟩ :=
    prims_of_cids s hwf.1 hwf.2.1 hwf.2.2.1 hwf.2.2.2.1 cids hcids
  simp only [identifyMerge]
  rw [hPs]
  cases hs : List.insertionSort createdLE Ps with
  | nil => exact hwf
  | cons oldest demoted =>
    dsimp only
    have hperm := List.perm_insertionSort createdLE Ps
    rw [hs] at hperm
    have hmemsorted : ∀ x ∈ oldest :: demoted, x ∈ Ps := fun x hx => hperm.mem_iff.1 hx
    have holdmem : oldest ∈ s :=
      (hPmem oldest (hmemsorted oldest (List.mem_cons_self _ _))).1
    have holdprim : oldest.linkPrecedence = Prec.primary :=
      (hPmem oldest (hmemsorted oldest (List.mem_cons_self _ _))).2
    have hnods : ((oldest :: demoted).map (fun c => c.id)).Nodup := by
      have h1 : (Ps.map (fun c => some c.id)).Nodup := by
        rw [hPcids]
        exact hndc
      have h2 : (Ps.map (fun c => c.id)).Nodup := by
        have hmm : Ps.map (fun c => (some c.id : Option Nat)) =
            (Ps.map (fun c => c.id)).map some := by
          rw [List.map_map]
          rfl
        rw [hmm] at h1
        exact h1.of_map _
      exact ((hperm.map (fun c => c.id)).nodup_iff).2 h2
    rw [List.map_cons, List.nodup_cons] at hnods
    have ho : oldest.id ∉ demoted.map (fun c => c.id) := hnods.1
    have hndp : (demoted.map (fun c => c.id)).Nodup := hnods.2
    have hpids : ∀ pid ∈ demoted.map (fun c => c.id),
        ∃ q, q ∈ s ∧ q.id = pid ∧ q.linkPrecedence = Prec.primary := by
      intro pid hpid
      obtain ⟨q, hq, rfl⟩ := List.mem_map.1 hpid
      have hqPs := hmemsorted q (List.mem_cons_of_mem _ hq)
      exact ⟨q, (hPmem q hqPs).1, rfl, (hPmem q hqPs).2⟩
    have hwfm : WF (applyMergeAll oldest.id (demoted.map (fun c => c.id)) now s) nid :=
      WF_applyMergeAll s nid now oldest _ hwf holdmem holdprim hpids hndp ho
    split
    · exact hwfm
    · dsimp only
      have holdlk : oldest.linkedId = none := (hwf.2.2.1 oldest holdmem).1 holdprim
      have holdF : mergeContact oldest.id (demoted.map (fun c => c.id)) now oldest = oldest :=
        mergeContact_untouched _ _ _ _ ho (fun j hj _ => by
          rw [holdlk] at hj
          exact Option.noConfusion hj)
      refine WF_append _ nid _ hwfm rfl rfl
        (by constructor
            · intro h
              exact absurd h (by simp)
            · intro h
              exact absurd h (by simp))
        (fun j hj => ?_) (orNull_ne_blank req.email) (orNull_ne_blank req.phoneNumber)
      simp only at hj
      rw [applyMergeAll_eq_map]
      refine ⟨mergeContact oldest.id (demoted.map (fun c => c.id)) now oldest,
        List.mem_map_of_mem _ holdmem, ?_, ?_⟩
      · rw [holdF]
        exact Option.some.inj hj
      · rw [holdF]
        exact holdprim

theorem cid_has_primary (s : List Contact) (nid : Nat) (hwf : WF s nid)
    (e p : Option String) :
    ∀ cid ∈ dedupFirst ((findContactsByEmailOrPhone e p s).map chainIdOf),
      ∃ P, P ∈ s ∧ P.linkPrecedence = Prec.primary ∧ cid = some P.id := by
  intro cid hcid
  rw [dedupFirst_mem] at hcid
  obtain ⟨m, hm, rfl⟩ := List.mem_map.1 hcid
  have hms : m ∈ s := mem_findContacts e p s m hm
  unfold chainIdOf
  by_cases hmp : m.linkPrecedence = Prec.primary
  · rw [if_pos hmp]
    exact ⟨m, hms, hmp, rfl⟩
  · rw [if_neg hmp]
    cases hlk : m.linkedId with
    | none =>
      exact absurd ((hwf.2.2.1 m hms).2 hlk) hmp
    | some j =>
      obtain ⟨d, hd, hdid, hdprim⟩ := hwf.2.2.2.1 m hms j hlk
      exact ⟨d, hd, hdprim, by rw [hdid]⟩

theorem identifyStep_WF (s : List Contact) (nid : Nat) (req : Req) (now : Nat)
    (hwf : WF s nid) :
    WF (identifyStep s nid req now).1 (identifyStep s nid req now).2.1 := by
  unfold identifyStep
  split
  · exact hwf
  · dsimp only
    split
    · exact identifyNoMatch_WF s nid req now hwf
    · split
      · apply identifySingleChain_WF s nid req now _ hwf
        intro x hx
        split at hx
        · exact chain_subset s _ x hx
        · simp at hx
      · split
        · exact identifyMerge_WF s nid req now _ hwf (dedupFirst_nodup _)
            (cid_has_primary s nid hwf req.email req.phoneNumber)
        · exact hwf

theorem runFold_WF (reqs : List (Req × Nat)) :
    ∀ (s : List Contact) (nid : Nat), WF s nid →
    WF (reqs.foldl (fun acc rq =>
        let r := identifyStep acc.1 acc.2 rq.1 rq.2
        (r.1, r.2.1)) (s, nid)).1
      (reqs.foldl (fun acc rq =>
        let r := identifyStep acc.1 acc.2 rq.1 rq.2
        (r.1, r.2.1)) (s, nid)).2 := by
  induction reqs with
  | nil =>
    intro s nid h
    exact h
  | cons rq rest ih =>
    intro s nid h
    simp only [List.foldl_cons]
    exact ih _ _ (identifyStep_WF s nid rq.1 rq.2 h)

theorem WF_empty : WF [] 1 := by
  refine ⟨List.nodup_nil, ?_, ?_, ?_, ?_, ?_⟩ <;> simp

theorem runIdentify_WF (reqs : List (Req × Nat)) :
    WF (runIdentify reqs).1 (runIdentify reqs).2 :=
  runFold_WF reqs [] 1 WF_empty

/-! ## Response characterization and evaluation helpers -/

theorem truthy_some (v : String) (hv : v ≠ "") : truthy (some v) = true := by
  simp [truthy, hv]

theorem dedupFirst_head {α : Type} [DecidableEq α] (x : α) (xs : List α) :
    dedupFirst (x :: xs) = x :: dedupFirstAux [x] xs := by
  unfold dedupFirst
  simp [dedupFirstAux]

theorem filterBooleanStr_cons_some (v : String) (hv : v ≠ "") (rest : List (Option String)) :
    filterBooleanStr (some v :: rest) = v :: filterBooleanStr rest := by
  simp [filterBooleanStr, hv]

theorem blank_not_mem_filterBooleanStr (l : List (Option String)) :
    "" ∉ filterBooleanStr l := by
  intro h
  unfold filterBooleanStr at h
  obtain ⟨o, _, ho⟩ := List.mem_filterMap.1 h
  cases o with
  | none => exact Option.noConfusion ho
  | some x =>
    dsimp only at ho
    by_cases hx : x = ""
    · rw [if_pos hx] at ho
      exact Option.noConfusion ho
    · rw [if_neg hx] at ho
      exact hx (Option.some.inj ho)

theorem returnResponse_chain (s : List Contact) (nid : Nat) (hwf : WF s nid)
    (P : Contact) (hP : P ∈ s) (hprim : P.linkPrecedence = Prec.primary) :
    ∃ r, returnResponse (getAllContactsInChain P.id s) = some r ∧
      r.primaryContatctId = P.id ∧
      r.emails.Nodup ∧ r.phoneNumbers.Nodup ∧
      (∀ es, P.email = some es → r.emails.head? = some es) ∧
      (∀ ps, P.phoneNumber = some ps → r.phoneNumbers.head? = some ps) := by
  obtain ⟨wnd, wdel, wiff, wtgt, wbound, wblank⟩ := hwf
  have hfind := find?_primary_chain s P wnd wdel wiff wtgt hP hprim
  unfold returnResponse
  rw [hfind]
  refine ⟨_, rfl, rfl, dedupFirst_nodup _, dedupFirst_nodup _, ?_, ?_⟩
  · intro es hes
    have hesne : es ≠ "" := by
      intro h
      subst h
      exact (wblank P hP).1 hes
    rw [hes, filterBooleanStr_cons_some es hesne, dedupFirst_head]
    rfl
  · intro ps hps
    have hpsne : ps ≠ "" := by
      intro h
      subst h
      exact (wblank P hP).2 hps
    rw [hps, filterBooleanStr_cons_some ps hpsne, dedupFirst_head]
    rfl

theorem mem_matched_email (es : String) (p : Option String) (s : List Contact) (nid : Nat)
    (hwf : WF s nid) (hes : es ≠ "") (c : Contact) (hc : c ∈ s) (hce : c.email = some es) :
    c ∈ findContactsByEmailOrPhone (some es) p s := by
  rw [findContactsByEmailOrPhone, List.mem_filter]
  refine ⟨hc, ?_⟩
  rw [Bool.and_eq_true, Bool.or_eq_true]
  constructor
  · rw [beq_iff_eq]
    exact hwf.2.1 c hc
  · left
    unfold matchVal
    dsimp only
    rw [if_neg hes, hce]
    exact beq_self_eq_true _

theorem mem_matched_phone (e : Option String) (ps : String) (s : List Contact) (nid : Nat)
    (hwf : WF s nid) (hps : ps ≠ "") (c : Contact) (hc : c ∈ s) (hcp : c.phoneNumber = some ps) :
    c ∈ findContactsByEmailOrPhone e (some ps) s := by
  rw [findContactsByEmailOrPhone, List.mem_filter]
  refine ⟨hc, ?_⟩
  rw [Bool.and_eq_true, Bool.or_eq_true]
  constructor
  · rw [beq_iff_eq]
    exact hwf.2.1 c hc
  · right
    unfold matchVal
    dsimp only
    rw [if_neg hps, hcp]
    exact beq_self_eq_true _

theorem matched_chainId (s : List Contact) (nid : Nat) (hwf : WF s nid)
    (m : Contact) (hm : m ∈ s) :
    ∃ P, P ∈ s ∧ P.linkPrecedence = Prec.primary ∧ chainIdOf m = some P.id := by
  by_cases hmp : m.linkPrecedence = Prec.primary
  · exact ⟨m, hm, hmp, by rw [chainIdOf, if_pos hmp]⟩
  · cases hlk : m.linkedId with
    | none => exact absurd ((hwf.2.2.1 m hm).2 hlk) hmp
    | some j =>
      obtain ⟨d, hd, hdid, hdprim⟩ := hwf.2.2.2.1 m hm j hlk
      exact ⟨d, hd, hdprim, by rw [chainIdOf, if_neg hmp, hlk, hdid]⟩

theorem mem_chain_of_chainId (s : List Contact) (nid : Nat) (hwf : WF s nid)
    (P : Contact) (hP : P ∈ s) (hprim : P.linkPrecedence = Prec.primary)
    (m : Contact) (hm : m ∈ s) (hcid : chainIdOf m = some P.id) :
    m ∈ getAllContactsInChain P.id s := by
  obtain ⟨wnd, wdel, wiff, wtgt, wbound, wblank⟩ := hwf
  rw [mem_chain_iff s P wnd wdel wiff wtgt hP hprim]
  unfold chainIdOf at hcid
  by_cases hmp : m.linkPrecedence = Prec.primary
  · rw [if_pos hmp] at hcid
    left
    exact List.inj_on_of_nodup_map wnd hm hP (Option.some.inj hcid)
  · rw [if_neg hmp] at hcid
    right
    exact (mem_chainSecondaries s P.id m).2 ⟨hm, wdel m hm, hcid⟩

theorem hasEmailVal_of_mem (contacts : List Contact) (v : String) (hv : v ≠ "")
    (c : Contact) (hc : c ∈ contacts) (hce : c.email = some v) :
    hasEmailVal contacts (some v) = true := by
  unfold hasEmailVal
  dsimp only
  rw [if_neg hv, List.any_eq_true]
  exact ⟨c, hc, by rw [hce]; exact beq_self_eq_true _⟩

theorem hasPhoneVal_of_mem (contacts : List Contact) (v : String) (hv : v ≠ "")
    (c : Contact) (hc : c ∈ contacts) (hcp : c.phoneNumber = some v) :
    hasPhoneVal contacts (some v) = true := by
  unfold hasPhoneVal
  dsimp only
  rw [if_neg hv, List.any_eq_true]
  exact ⟨c, hc, by rw [hcp]; exact beq_self_eq_true _⟩

theorem applyMergeAll_map_id (oid : Nat) (pids : List Nat) (now : Nat) (s : List Contact) :
    (applyMergeAll oid pids now s).map (fun c => c.id) = s.map (fun c => c.id) := by
  rw [applyMergeAll_eq_map, List.map_map]
  exact List.map_congr_left fun c _ => (mergeContact_fields oid pids now c).1

theorem findContacts_map_merge (e p : Option String) (oid : Nat) (pids : List Nat)
    (now : Nat) (s : List Contact) :
    findContactsByEmailOrPhone e p (s.map (mergeContact oid pids now)) =
      (findContactsByEmailOrPhone e p s).map (mergeContact oid pids now) := by
  unfold findContactsByEmailOrPhone
  rw [List.filter_map]
  congr 1
  apply List.filter_congr
  intro c _
  simp only [Function.comp]
  rw [(mergeContact_fields oid pids now c).2.1, (mergeContact_fields oid pids now c).2.2.1,
    (mergeContact_fields oid pids now c).2.2.2.2]

theorem identifyStep_dispatch (s : List Contact) (nid now : Nat) (e p : Option String)
    (he : truthy e = true)
    (hne : findContactsByEmailOrPhone e p s ≠ []) :
    identifyStep s nid ⟨e, p⟩ now =
      (if (dedupFirst ((findContactsByEmailOrPhone e p s).map chainIdOf)).length = 1 then
        identifySingleChain s nid ⟨e, p⟩ now
          (match dedupFirst ((findContactsByEmailOrPhone e p s).map chainIdOf) with
           | [some n] => getAllContactsInChain n s
           | _ => [])
      else if (dedupFirst ((findContactsByEmailOrPhone e p s).map chainIdOf)).length > 1 then
        identifyMerge s nid ⟨e, p⟩ now
          (((dedupFirst ((findContactsByEmailOrPhone e p s).map chainIdOf)).map (fun cid =>
            match cid with
            | some n => getAllContactsInChain n s
            | none => [])).flatten)
      else (s, nid, none)) := by
  unfold identifyStep
  rw [if_neg (by simp [he])]
  dsimp only
  rw [if_neg hne]

theorem sorted_prims_facts (s : List Contact) (nid : Nat) (_hwf : WF s nid)
    (cids : List (Option Nat)) (hndc : cids.Nodup) (Ps : List Contact)
    (hPmem : ∀ P ∈ Ps, P ∈ s ∧ P.linkPrecedence = Prec.primary)
    (hPcids : Ps.map (fun c => some c.id) = cids)
    (oldest : Contact) (demoted : List Contact)
    (hs : List.insertionSort createdLE Ps = oldest :: demoted) :
    oldest ∈ s ∧ oldest.linkPrecedence = Prec.primary ∧
    oldest.id ∉ demoted.map (fun c => c.id) ∧ (demoted.map (fun c => c.id)).Nodup ∧
    (∀ pid ∈ demoted.map (fun c => c.id),
      ∃ q, q ∈ s ∧ q.id = pid ∧ q.linkPrecedence = Prec.primary) ∧
    (∀ x ∈ Ps, x = oldest ∨ x ∈ demoted) := by
  have hperm := List.perm_insertionSort createdLE Ps
  rw [hs] at hperm
  have hmemsorted : ∀ x ∈ oldest :: demoted, x ∈ Ps := fun x hx => hperm.mem_iff.1 hx
  have hnods : ((oldest :: demoted).map (fun c => c.id)).Nodup := by
    have h1 : (Ps.map (fun c => some c.id)).Nodup := by
      rw [hPcids]
      exact hndc
    have h2 : (Ps.map (fun c => c.id)).Nodup := by
      have hmm : Ps.map (fun c => (some c.id : Option Nat)) =
          (Ps.map (fun c => c.id)).map some := by
        rw [List.map_map]
        rfl
      rw [hmm] at h1
      exact h1.of_map _
    exact ((hperm.map (fun c => c.id)).nodup_iff).2 h2
  rw [List.map_cons, List.nodup_cons] at hnods
  refine ⟨(hPmem oldest (hmemsorted oldest (List.mem_cons_self _ _))).1,
    (hPmem oldest (hmemsorted oldest (List.mem_cons_self _ _))).2,
    hnods.1, hnods.2, ?_, ?_⟩
  · intro pid hpid
    obtain ⟨q, hq, rfl⟩ := List.mem_map.1 hpid
    have hqPs := hmemsorted q (List.mem_cons_of_mem _ hq)
    exact ⟨q, (hPmem q hqPs).1, rfl, (hPmem q hqPs).2⟩
  · intro x hx
    have : x ∈ oldest :: demoted := hperm.mem_iff.2 hx
    exact List.mem_cons.1 this

theorem merged_chainId (s : List Contact) (nid now : Nat) (hwf : WF s nid)
    (cids : List (Option Nat)) (hndc : cids.Nodup) (Ps : List Contact)
    (hPmem : ∀ P ∈ Ps, P ∈ s ∧ P.linkPrecedence = Prec.primary)
    (hPcids : Ps.map (fun c => some c.id) = cids)
    (oldest : Contact) (demoted : List Contact)
    (hs : List.insertionSort createdLE Ps = oldest :: demoted)
    (m : Contact) (hm : m ∈ s) (hmcid : chainIdOf m ∈ cids) :
    chainIdOf (mergeContact oldest.id (demoted.map (fun c => c.id)) now m) =
      some oldest.id := by
  obtain ⟨holdmem, holdprim, ho, hndp, hpids, hsplit⟩ :=
    sorted_prims_facts s nid hwf cids hndc Ps hPmem hPcids oldest demoted hs
  obtain ⟨wnd, wdel, wiff, wtgt, wbound, wblank⟩ := hwf
  have hfindPs : ∀ j : Nat, some j ∈ cids → ∃ Q, Q ∈ Ps ∧ Q.id = j := by
    intro j hj
    rw [← hPcids] at hj
    obtain ⟨Q, hQ, hQj⟩ := List.mem_map.1 hj
    exact ⟨Q, hQ, Option.some.inj hQj⟩
  have hid_not_in_pids_of_sec : ∀ m' : Contact, m' ∈ s →
      m'.linkPrecedence ≠ Prec.primary → m'.id ∉ demoted.map (fun c => c.id) := by
    intro m' hm' hm'p hmem
    obtain ⟨q, hq, hqid, hqprim⟩ := hpids m'.id hmem
    have : q = m' := List.inj_on_of_nodup_map wnd hq hm' hqid
    subst this
    exact hm'p hqprim
  by_cases hmp : m.linkPrecedence = Prec.primary
  · rw [chainIdOf, if_pos hmp] at hmcid
    obtain ⟨Q, hQ, hQid⟩ := hfindPs m.id hmcid
    have hQm : Q = m := List.inj_on_of_nodup_map wnd (hPmem Q hQ).1 hm hQid
    subst hQm
    rcases hsplit Q hQ with rfl | hdem
    · have hlk : Q.linkedId = none := (wiff Q hm).1 hmp
      rw [mergeContact_untouched _ _ _ _ ho (fun j hj _ => by
        rw [hlk] at hj
        exact Option.noConfusion hj)]
      rw [chainIdOf, if_pos hmp]
    · have hQpid : Q.id ∈ demoted.map (fun c => c.id) := List.mem_map_of_mem _ hdem
      have hlk : Q.linkedId = none := (wiff Q hm).1 hmp
      rw [mergeContact_demoted _ _ _ _ hndp ho hQpid hlk]
      simp [chainIdOf]
  · have hmnp : m.id ∉ demoted.map (fun c => c.id) := hid_not_in_pids_of_sec m hm hmp
    cases hlk : m.linkedId with
    | none => exact absurd ((wiff m hm).2 hlk) hmp
    | some j =>
      rw [chainIdOf, if_neg hmp, hlk] at hmcid
      obtain ⟨Q, hQ, hQid⟩ := hfindPs j hmcid
      rcases hsplit Q hQ with rfl | hdem
      · have hjold : j = Q.id := hQid.symm
        subst hjold
        rw [mergeContact_untouched _ _ _ _ hmnp (fun k hk hkm => by
          rw [hlk] at hk
          exact ho ((Option.some.inj hk) ▸ hkm))]
        rw [chainIdOf, if_neg hmp, hlk]
      · have hjpid : j ∈ demoted.map (fun c => c.id) := by
          rw [← hQid]
          exact List.mem_map_of_mem _ hdem
        rw [mergeContact_reparented _ _ _ _ j ho hmnp hlk hjpid]
        simp [chainIdOf, hmp]

theorem step_single_known (s : List Contact) (nid now : Nat) (es ps : String)
    (hwf : WF s nid) (hes : es ≠ "") (hps : ps ≠ "")
    (d1 : Contact) (hd1 : d1 ∈ s) (hd1e : d1.email = some es)
    (d2 : Contact) (hd2 : d2 ∈ s) (hd2p : d2.phoneNumber = some ps)
    (P : Contact) (hP : P ∈ s) (hPprim : P.linkPrecedence = Prec.primary)
    (hone : ∀ m ∈ findContactsByEmailOrPhone (some es) (some ps) s,
      chainIdOf m = some P.id) :
    identifyStep s nid ⟨some es, some ps⟩ now =
      (s, nid, returnResponse (getAllContactsInChain P.id s)) := by
  have hd1m : d1 ∈ findContactsByEmailOrPhone (some es) (some ps) s :=
    mem_matched_email es (some ps) s nid hwf hes d1 hd1 hd1e
  have hd2m : d2 ∈ findContactsByEmailOrPhone (some es) (some ps) s :=
    mem_matched_phone (some es) ps s nid hwf hps d2 hd2 hd2p
  have hne : findContactsByEmailOrPhone (some es) (some ps) s ≠ [] :=
    List.ne_nil_of_mem hd1m
  rw [identifyStep_dispatch s nid now (some es) (some ps) (truthy_some es hes) hne]
  have hcids : dedupFirst ((findContactsByEmailOrPhone (some es) (some ps) s).map chainIdOf)
      = [some P.id] := by
    refine dedupFirst_const _ _ ?_ ?_
    · intro h
      rw [List.map_eq_nil_iff] at h
      exact hne h
    · intro a ha
      obtain ⟨m, hm, rfl⟩ := List.mem_map.1 ha
      exact hone m hm
  rw [hcids]
  have hlone : ([some P.id] : List (Option Nat)).length = 1 := by simp
  rw [if_pos hlone]
  dsimp only
  have hd1c : d1 ∈ getAllContactsInChain P.id s :=
    mem_chain_of_chainId s nid hwf P hP hPprim d1 hd1 (hone d1 hd1m)
  have hd2c : d2 ∈ getAllContactsInChain P.id s :=
    mem_chain_of_chainId s nid hwf P hP hPprim d2 hd2 (hone d2 hd2m)
  have hE := hasEmailVal_of_mem _ es hes d1 hd1c hd1e
  have hH := hasPhoneVal_of_mem _ ps hps d2 hd2c hd2p
  simp only [identifySingleChain]
  rw [if_neg (by simp [hE, hH])]

theorem step_both_known (s : List Contact) (nid now : Nat) (es ps : String)
    (hwf : WF s nid) (hes : es ≠ "") (hps : ps ≠ "")
    (c1 : Contact) (hc1 : c1 ∈ s) (hc1e : c1.email = some es)
    (c2 : Contact) (hc2 : c2 ∈ s) (hc2p : c2.phoneNumber = some ps) :
    ∃ P r,
      P ∈ (identifyStep s nid ⟨some es, some ps⟩ now).1 ∧
      P.linkPrecedence = Prec.primary ∧
      (identifyStep s nid ⟨some es, some ps⟩ now).2.1 = nid ∧
      (identifyStep s nid ⟨some es, some ps⟩ now).2.2 = some r ∧
      r.primaryContatctId = P.id ∧
      ((identifyStep s nid ⟨some es, some ps⟩ now).1).map (fun c => c.id)
        = s.map (fun c => c.id) ∧
      WF (identifyStep s nid ⟨some es, some ps⟩ now).1 nid ∧
      (∃ d1, d1 ∈ (identifyStep s nid ⟨some es, some ps⟩ now).1 ∧ d1.email = some es) ∧
      (∃ d2, d2 ∈ (identifyStep s nid ⟨some es, some ps⟩ now).1 ∧
        d2.phoneNumber = some ps) ∧
      (∀ m ∈ findContactsByEmailOrPhone (some es) (some ps)
        (identifyStep s nid ⟨some es, some ps⟩ now).1, chainIdOf m = some P.id) := by
  have hc1m := mem_matched_email es (some ps) s nid hwf hes c1 hc1 hc1e
  have hc2m := mem_matched_phone (some es) ps s nid hwf hps c2 hc2 hc2p
  have hne : findContactsByEmailOrPhone (some es) (some ps) s ≠ [] :=
    List.ne_nil_of_mem hc1m
  have hndc := dedupFirst_nodup
    ((findContactsByEmailOrPhone (some es) (some ps) s).map chainIdOf)
  have hcidsprim := cid_has_primary s nid hwf (some es) (some ps)
  by_cases h1 : (dedupFirst ((findContactsByEmailOrPhone (some es) (some ps) s).map
      chainIdOf)).length = 1
  · obtain ⟨P, hP, hPprim, hPcid⟩ := matched_chainId s nid hwf c1 hc1
    obtain ⟨x, hx⟩ := List.length_eq_one.1 h1
    have hallx := dedupFirst_singleton_all _ x hx
    have hone : ∀ m ∈ findContactsByEmailOrPhone (some es) (some ps) s,
        chainIdOf m = some P.id := by
      intro m hm
      have h1' := hallx (chainIdOf m) (List.mem_map_of_mem _ hm)
      have h2' := hallx (chainIdOf c1) (List.mem_map_of_mem _ hc1m)
      rw [h1', ← h2', hPcid]
    have heq := step_single_known s nid now es ps hwf hes hps c1 hc1 hc1e c2 hc2 hc2p
      P hP hPprim hone
    rw [heq]
    obtain ⟨r, hr, hrid, _, _, _, _⟩ := returnResponse_chain s nid hwf P hP hPprim
    exact ⟨P, r, hP, hPprim, rfl, hr, hrid, rfl, hwf,
      ⟨c1, hc1, hc1e⟩, ⟨c2, hc2, hc2p⟩, hone⟩
  · have hlen1 : 1 ≤ (dedupFirst ((findContactsByEmailOrPhone (some es) (some ps) s).map
        chainIdOf)).length := by
      apply List.length_pos.2
      apply dedupFirst_ne_nil
      intro h
      rw [List.map_eq_nil_iff] at h
      exact hne h
    have h2 : (dedupFirst ((findContactsByEmailOrPhone (some es) (some ps) s).map
        chainIdOf)).length > 1 := by omega
    obtain ⟨Ps, hPs, hPmem, hPcids⟩ :=
      prims_of_cids s hwf.1 hwf.2.1 hwf.2.2.1 hwf.2.2.2.1 _ hcidsprim
    have hPsne : Ps ≠ [] := by
      intro h
      rw [h] at hPcids
      simp only [List.map_nil] at hPcids
      rw [← hPcids] at h2
      simp at h2
    cases hs : List.insertionSort createdLE Ps with
    | nil =>
      exfalso
      have hp := List.perm_insertionSort createdLE Ps
      rw [hs] at hp
      exact hPsne hp.nil_eq.symm
    | cons oldest demoted =>
      obtain ⟨holdmem, holdprim, ho, hndp, hpids, hsplit⟩ :=
        sorted_prims_facts s nid hwf _ hndc Ps hPmem hPcids oldest demoted hs
      have hc1all : c1 ∈ ((dedupFirst ((findContactsByEmailOrPhone (some es) (some ps) s).map
          chainIdOf)).map (fun cid => match cid with
            | some n => getAllContactsInChain n s
            | none => [])).flatten := by
        obtain ⟨P1, hP1, hP1prim, hP1cid⟩ := matched_chainId s nid hwf c1 hc1
        have hc1cid : (some P1.id : Option Nat) ∈
            dedupFirst ((findContactsByEmailOrPhone (some es) (some ps) s).map chainIdOf) := by
          rw [← hP1cid]
          exact (dedupFirst_mem _ _).2 (List.mem_map_of_mem _ hc1m)
        apply List.mem_flatten.2
        exact ⟨getAllContactsInChain P1.id s, List.mem_map.2 ⟨some P1.id, hc1cid, rfl⟩,
          mem_chain_of_chainId s nid hwf P1 hP1 hP1prim c1 hc1 hP1cid⟩
      have hc2all : c2 ∈ ((dedupFirst ((findContactsByEmailOrPhone (some es) (some ps) s).map
          chainIdOf)).map (fun cid => match cid with
            | some n => getAllContactsInChain n s
            | none => [])).flatten := by
        obtain ⟨P2, hP2, hP2prim, hP2cid⟩ := matched_chainId s nid hwf c2 hc2
        have hc2cid : (some P2.id : Option Nat) ∈
            dedupFirst ((findContactsByEmailOrPhone (some es) (some ps) s).map chainIdOf) := by
          rw [← hP2cid]
          exact (dedupFirst_mem _ _).2 (List.mem_map_of_mem _ hc2m)
        apply List.mem_flatten.2
        exact ⟨getAllContactsInChain P2.id s, List.mem_map.2 ⟨some P2.id, hc2cid, rfl⟩,
          mem_chain_of_chainId s nid hwf P2 hP2 hP2prim c2 hc2 hP2cid⟩
      have hE := hasEmailVal_of_mem _ es hes c1 hc1all hc1e
      have hH := hasPhoneVal_of_mem _ ps hps c2 hc2all hc2p
      have heq : identifyStep s nid ⟨some es, some ps⟩ now =
          (applyMergeAll oldest.id (demoted.map (fun c => c.id)) now s, nid,
           returnResponse (getAllContactsInChain oldest.id
             (applyMergeAll oldest.id (demoted.map (fun c => c.id)) now s))) := by
        rw [identifyStep_dispatch s nid now (some es) (some ps) (truthy_some es hes) hne]
        rw [if_neg h1, if_pos h2]
        simp only [identifyMerge]
        rw [hPs, hs]
        dsimp only
        rw [if_pos (by simp [hE, hH])]
      rw [heq]
      have hwfm : WF (applyMergeAll oldest.id (demoted.map (fun c => c.id)) now s) nid :=
        WF_applyMergeAll s nid now oldest _ hwf holdmem holdprim hpids hndp ho
      have holdlk : oldest.linkedId = none := (hwf.2.2.1 oldest holdmem).1 holdprim
      have holdF : mergeContact oldest.id (demoted.map (fun c => c.id)) now oldest = oldest :=
        mergeContact_untouched _ _ _ _ ho (fun j hj _ => by
          rw [holdlk] at hj
          exact Option.noConfusion hj)
      have holdmem1 : oldest ∈ applyMergeAll oldest.id (demoted.map (fun c => c.id)) now s := by
        rw [applyMergeAll_eq_map]
        have hmm : mergeContact oldest.id (demoted.map (fun c => c.id)) now oldest ∈
            s.map (mergeContact oldest.id (demoted.map (fun c => c.id)) now) :=
          List.mem_map_of_mem _ holdmem
        rwa [holdF] at hmm
      obtain ⟨r, hr, hrid, _, _, _, _⟩ := returnResponse_chain _ nid hwfm oldest holdmem1 holdprim
      refine ⟨oldest, r, holdmem1, holdprim, rfl, hr, hrid,
        applyMergeAll_map_id _ _ _ _, hwfm, ?_, ?_, ?_⟩
      · refine ⟨mergeContact oldest.id (demoted.map (fun c => c.id)) now c1, ?_, ?_⟩
        · rw [applyMergeAll_eq_map]
          exact List.mem_map_of_mem _ hc1
        · rw [(mergeContact_fields _ _ _ c1).2.1]
          exact hc1e
      · refine ⟨mergeContact oldest.id (demoted.map (fun c => c.id)) now c2, ?_, ?_⟩
        · rw [applyMergeAll_eq_map]
          exact List.mem_map_of_mem _ hc2
        · rw [(mergeContact_fields _ _ _ c2).2.2.1]
          exact hc2p
      · intro m hm
        rw [applyMergeAll_eq_map, findContacts_map_merge] at hm
        obtain ⟨m0, hm0, rfl⟩ := List.mem_map.1 hm
        exact merged_chainId s nid now hwf _ hndc Ps hPmem hPcids oldest demoted hs m0
          (mem_findContacts _ _ _ _ hm0)
          ((dedupFirst_mem _ _).2 (List.mem_map_of_mem _ hm0))

theorem chainLevels_deletedAt (s : List Contact) (fuel : Nat) (frontier : List Contact)
    (x : Contact) (h : x ∈ chainLevels s fuel frontier) : x.deletedAt = none := by
  induction fuel generalizing frontier with
  | zero => simp [chainLevels] at h
  | succ fuel ih =>
    simp only [chainLevels] at h
    split at h
    · simp at h
    · rcases List.mem_append.1 h with h | h
      · have := (List.mem_filter.1 h).2
        rw [Bool.and_eq_true, beq_iff_eq] at this
        exact this.1
      · exact ih _ h

theorem blankOptVal_fuse (o : Option String) :
    (fun o : Option String => match o with
      | some x => if x = "" then none else some x
      | none => none)
    ((fun o : Option String => match o with
      | some x => if x = "" then none else some x
      | none => none) o) =
    (fun o : Option String => match o with
      | some x => if x = "" then none else some x
      | none => none) o := by
  cases o with
  | none => rfl
  | some x =>
    by_cases hx : x = ""
    · simp [hx]
    · simp [hx]

theorem filterBooleanStr_map_blank (l : List (Option String)) :
    filterBooleanStr (l.map (fun o => match o with
      | some x => if x = "" then none else some x
      | none => none)) = filterBooleanStr l := by
  unfold filterBooleanStr
  rw [List.filterMap_map]
  apply List.filterMap_congr
  intro o _
  exact blankOptVal_fuse o

theorem returnResponse_map_blank (contacts : List Contact) :
    returnResponse (contacts.map blankToNone) = returnResponse contacts := by
  unfold returnResponse
  rw [List.find?_map]
  have hpred : ((fun c => c.linkPrecedence == Prec.primary) ∘ blankToNone) =
      (fun c => c.linkPrecedence == Prec.primary) := funext fun c => rfl
  rw [hpred]
  cases hfind : contacts.find? (fun c => c.linkPrecedence == Prec.primary) with
  | none => rfl
  | some primary =>
    dsimp only [Option.map]
    have hsec : (contacts.map blankToNone).filter
        (fun c => c.linkPrecedence == Prec.secondary)
        = (contacts.filter (fun c => c.linkPrecedence == Prec.secondary)).map blankToNone := by
      rw [List.filter_map]
      have : ((fun c => c.linkPrecedence == Prec.secondary) ∘ blankToNone) =
          (fun c => c.linkPrecedence == Prec.secondary) := funext fun c => rfl
      rw [this]
    rw [hsec]
    congr 1
    congr 1
    · rw [List.map_map]
      have hlist : (blankToNone primary).email ::
          (contacts.filter (fun c => c.linkPrecedence == Prec.secondary)).map
            ((fun c => c.email) ∘ blankToNone)
          = (primary.email :: (contacts.filter
              (fun c => c.linkPrecedence == Prec.secondary)).map (fun c => c.email)).map
            (fun o => match o with
              | some x => if x = "" then none else some x
              | none => none) := by
        rw [List.map_cons, List.map_map]
        rfl
      rw [hlist, filterBooleanStr_map_blank]
    · rw [List.map_map]
      have hlist : (blankToNone primary).phoneNumber ::
          (contacts.filter (fun c => c.linkPrecedence == Prec.secondary)).map
            ((fun c => c.phoneNumber) ∘ blankToNone)
          = (primary.phoneNumber :: (contacts.filter
              (fun c => c.linkPrecedence == Prec.secondary)).map (fun c => c.phoneNumber)).map
            (fun o => match o with
              | some x => if x = "" then none else some x
              | none => none) := by
        rw [List.map_cons, List.map_map]
        rfl
      rw [hlist, filterBooleanStr_map_blank]
    · rw [List.map_map]
      rfl


/-! ## Claim theorems -/

/-- Claim C1 (code bug): a request supplying only an email that is already
present in the single matching chain is claimed to perform no insert, but
the single-chain branch tests `!hasEmail || !hasPhone`, and with no phone
supplied `hasPhone` is falsy, so the code inserts a duplicate secondary.
This theorem evaluates the embedded code at the failing input: after
creating a primary with email `a` and phone `p`, the email-only request
`{email: a}` adds a second contact. -/
theorem c1_email_only_duplicate_insert :
    (runIdentify [(⟨some "a", some "p"⟩, 0)]).1 =
      [⟨1, some "p", some "a", none, Prec.primary, 0, 0, none⟩] ∧
    (runIdentify [(⟨some "a", some "p"⟩, 0), (⟨some "a", none⟩, 1)]).1 =
      [⟨1, some "p", some "a", none, Prec.primary, 0, 0, none⟩,
       ⟨2, none, some "a", some 1, Prec.secondary, 1, 1, none⟩] := by decide

/-- Claim C2 (counterexample): in a state reached by five completed
requests all timestamped 0, the sixth request `{email: e5, phone: p}`
matches two distinct chains whose primaries (ids 2 and 1) share the
minimal `createdAt = 0`; the merge keeps id 2 as surviving primary even
though the smallest tied id is 1, refuting the claimed id tie-break. -/
theorem c2_tie_break_counterexample :
    ((identifyStep (runIdentify [(⟨some "ey", none⟩, 0), (⟨some "ex", none⟩, 0),
        (⟨some "ex", some "p"⟩, 0), (⟨some "ey", some "q"⟩, 0),
        (⟨some "e5", some "q"⟩, 0)]).1
      (runIdentify [(⟨some "ey", none⟩, 0), (⟨some "ex", none⟩, 0),
        (⟨some "ex", some "p"⟩, 0), (⟨some "ey", some "q"⟩, 0),
        (⟨some "e5", some "q"⟩, 0)]).2
      ⟨some "e5", some "p"⟩ 0).2.2).map (fun r => r.primaryContatctId) = some 2 ∧
    (dedupFirst ((findContactsByEmailOrPhone (some "e5") (some "p")
      (runIdentify [(⟨some "ey", none⟩, 0), (⟨some "ex", none⟩, 0),
        (⟨some "ex", some "p"⟩, 0), (⟨some "ey", some "q"⟩, 0),
        (⟨some "e5", some "q"⟩, 0)]).1).map chainIdOf)).length = 2 ∧
    (∃ cA ∈ (runIdentify [(⟨some "ey", none⟩, 0), (⟨some "ex", none⟩, 0),
        (⟨some "ex", some "p"⟩, 0), (⟨some "ey", some "q"⟩, 0),
        (⟨some "e5", some "q"⟩, 0)]).1,
      cA.id = 1 ∧ cA.linkPrecedence = Prec.primary ∧ cA.createdAt = 0) ∧
    (∃ cB ∈ (runIdentify [(⟨some "ey", none⟩, 0), (⟨some "ex", none⟩, 0),
        (⟨some "ex", some "p"⟩, 0), (⟨some "ey", some "q"⟩, 0),
        (⟨some "e5", some "q"⟩, 0)]).1,
      cB.id = 2 ∧ cB.linkPrecedence = Prec.primary ∧ cB.createdAt = 0) := by decide

/-- Claim C2 (amended): the surviving primary of a merge is, among the
current primaries of the implicated chains, the FIRST-ENCOUNTERED one with
the smallest `createdAt` (the stable sort keeps traversal order on ties);
ties are not broken by smallest id.  The merge demotes exactly the other
primaries in sorted order onto the survivor. -/
theorem c2_survivor_stable_min_created (s allContacts : List Contact) (nid now : Nat)
    (req : Req) (o : Contact)
    (ho : firstMinByCreated (allContacts.filter
      (fun c => c.linkPrecedence == Prec.primary)) = some o) :
    o ∈ allContacts.filter (fun c => c.linkPrecedence == Prec.primary) ∧
    (∀ q ∈ allContacts.filter (fun c => c.linkPrecedence == Prec.primary),
      o.createdAt ≤ q.createdAt) ∧
    ∃ demoted tailIns,
      List.insertionSort createdLE
        (allContacts.filter (fun c => c.linkPrecedence == Prec.primary)) = o :: demoted ∧
      (identifyMerge s nid req now allContacts).1 =
        applyMergeAll o.id (demoted.map (fun c => c.id)) now s ++ tailIns := by
  have hspec := firstMinByCreated_spec _ o ho
  have hhead := head?_insertionSort_createdLE
    (allContacts.filter (fun c => c.linkPrecedence == Prec.primary))
  rw [ho] at hhead
  refine ⟨hspec.1, hspec.2, ?_⟩
  cases hsort : List.insertionSort createdLE
      (allContacts.filter (fun c => c.linkPrecedence == Prec.primary)) with
  | nil =>
    rw [hsort] at hhead
    exact Option.noConfusion hhead
  | cons x rest =>
    rw [hsort] at hhead
    simp only [List.head?_cons] at hhead
    injection hhead with hxo
    subst hxo
    refine ⟨rest, ?_⟩
    simp only [identifyMerge]
    rw [hsort]
    dsimp only
    split
    · exact ⟨[], trivial, by rw [List.append_nil]⟩
    · exact ⟨[⟨nid, orNull req.phoneNumber, orNull req.email, some x.id, Prec.secondary,
        now, now, none⟩], trivial, rfl⟩

/-- Witness for the amended C2 at a concrete two-primary store. -/
theorem c2_survivor_stable_min_created_witness :
    firstMinByCreated (([⟨1, none, some "x", none, Prec.primary, 5, 0, none⟩,
      ⟨2, none, some "y", none, Prec.primary, 3, 0, none⟩] : List Contact).filter
        (fun c => c.linkPrecedence == Prec.primary))
      = some ⟨2, none, some "y", none, Prec.primary, 3, 0, none⟩ ∧
    ((⟨2, none, some "y", none, Prec.primary, 3, 0, none⟩ : Contact) ∈
      (([⟨1, none, some "x", none, Prec.primary, 5, 0, none⟩,
        ⟨2, none, some "y", none, Prec.primary, 3, 0, none⟩] : List Contact).filter
          (fun c => c.linkPrecedence == Prec.primary)) ∧
    (∀ q ∈ (([⟨1, none, some "x", none, Prec.primary, 5, 0, none⟩,
        ⟨2, none, some "y", none, Prec.primary, 3, 0, none⟩] : List Contact).filter
          (fun c => c.linkPrecedence == Prec.primary)),
      (⟨2, none, some "y", none, Prec.primary, 3, 0, none⟩ : Contact).createdAt
        ≤ q.createdAt) ∧
    ∃ demoted tailIns,
      List.insertionSort createdLE
        (([⟨1, none, some "x", none, Prec.primary, 5, 0, none⟩,
          ⟨2, none, some "y", none, Prec.primary, 3, 0, none⟩] : List Contact).filter
            (fun c => c.linkPrecedence == Prec.primary))
        = (⟨2, none, some "y", none, Prec.primary, 3, 0, none⟩ : Contact) :: demoted ∧
      (identifyMerge [⟨1, none, some "x", none, Prec.primary, 5, 0, none⟩,
          ⟨2, none, some "y", none, Prec.primary, 3, 0, none⟩] 3 ⟨some "x", none⟩ 9
          [⟨1, none, some "x", none, Prec.primary, 5, 0, none⟩,
            ⟨2, none, some "y", none, Prec.primary, 3, 0, none⟩]).1 =
        applyMergeAll (⟨2, none, some "y", none, Prec.primary, 3, 0, none⟩ : Contact).id
          (demoted.map (fun c => c.id)) 9
          [⟨1, none, some "x", none, Prec.primary, 5, 0, none⟩,
            ⟨2, none, some "y", none, Prec.primary, 3, 0, none⟩] ++ tailIns) :=
  ⟨by decide, c2_survivor_stable_min_created
    [⟨1, none, some "x", none, Prec.primary, 5, 0, none⟩,
      ⟨2, none, some "y", none, Prec.primary, 3, 0, none⟩]
    [⟨1, none, some "x", none, Prec.primary, 5, 0, none⟩,
      ⟨2, none, some "y", none, Prec.primary, 3, 0, none⟩]
    3 9 ⟨some "x", none⟩ ⟨2, none, some "y", none, Prec.primary, 3, 0, none⟩ (by decide)⟩

/-- Claim C3 (counterexample): resolving the chain of primary id 1 in a
reachable two-contact store returns the secondary (id 2) FIRST and the
primary (id 1) LAST: `ORDER BY linkPrecedence DESC` puts the text value
`secondary` before `primary`, so the first element is not the primary. -/
theorem c3_order_counterexample :
    (getAllContactsInChain 1 (runIdentify [(⟨some "a", some "p"⟩, 0),
      (⟨some "a", some "q"⟩, 1)]).1).map (fun c => (c.id, c.linkPrecedence)) =
      [(2, Prec.secondary), (1, Prec.primary)] := by decide

/-- Claim C3 (amended): for a primary `P` of a well-formed store,
resolving `P`'s chain returns the chain's secondary contacts ordered by
`createdAt` ascending FIRST, followed by the primary as the LAST element
(not primary-first as claimed). -/
theorem c3_chain_order_secondaries_first (s : List Contact) (nid : Nat) (hwf : WF s nid)
    (P : Contact) (hP : P ∈ s) (hprim : P.linkPrecedence = Prec.primary) :
    getAllContactsInChain P.id s =
      List.insertionSort createdLE (chainSecondaries P.id s) ++ [P] :=
  getAllContactsInChain_eq s P hwf.1 hwf.2.1 hwf.2.2.1 hwf.2.2.2.1 hP hprim

/-- Witness for the amended C3 at a concrete primary-plus-secondary store. -/
theorem c3_chain_order_secondaries_first_witness :
    WF [⟨1, some "p", some "a", none, Prec.primary, 0, 0, none⟩,
        ⟨2, some "q", some "a", some 1, Prec.secondary, 1, 1, none⟩] 3 ∧
    getAllContactsInChain 1 [⟨1, some "p", some "a", none, Prec.primary, 0, 0, none⟩,
        ⟨2, some "q", some "a", some 1, Prec.secondary, 1, 1, none⟩] =
      List.insertionSort createdLE (chainSecondaries 1
        [⟨1, some "p", some "a", none, Prec.primary, 0, 0, none⟩,
         ⟨2, some "q", some "a", some 1, Prec.secondary, 1, 1, none⟩]) ++
      [⟨1, some "p", some "a", none, Prec.primary, 0, 0, none⟩] :=
  ⟨by decide, c3_chain_order_secondaries_first
    [⟨1, some "p", some "a", none, Prec.primary, 0, 0, none⟩,
     ⟨2, some "q", some "a", some 1, Prec.secondary, 1, 1, none⟩] 3 (by decide)
    ⟨1, some "p", some "a", none, Prec.primary, 0, 0, none⟩ (by decide) (by decide)⟩

/-- Claim C4 (code bug): the merge issues its demotion and reparenting as
separate unguarded UPDATEs (no transaction).  At a store with chains
`{1}` and `{2, 3→2}`, the request `{email: a, phone: p}` triggers the
two-statement merge sequence; if the store fails after the first
statement, the demotion of id 2 persists while id 3 still links to id 2,
which is now secondary — the state is mutated and the flatness invariant
is violated, with no rollback. -/
theorem c4_partial_merge_no_rollback :
    (identifyStep [⟨1, none, some "a", none, Prec.primary, 0, 0, none⟩,
        ⟨2, some "p", none, none, Prec.primary, 1, 1, none⟩,
        ⟨3, some "q", none, some 2, Prec.secondary, 2, 2, none⟩] 4
      ⟨some "a", some "p"⟩ 5).1
      = applyMergePrefix 1 [2] 5 2
        [⟨1, none, some "a", none, Prec.primary, 0, 0, none⟩,
         ⟨2, some "p", none, none, Prec.primary, 1, 1, none⟩,
         ⟨3, some "q", none, some 2, Prec.secondary, 2, 2, none⟩] ∧
    applyMergePrefix 1 [2] 5 1
        [⟨1, none, some "a", none, Prec.primary, 0, 0, none⟩,
         ⟨2, some "p", none, none, Prec.primary, 1, 1, none⟩,
         ⟨3, some "q", none, some 2, Prec.secondary, 2, 2, none⟩]
      ≠ [⟨1, none, some "a", none, Prec.primary, 0, 0, none⟩,
         ⟨2, some "p", none, none, Prec.primary, 1, 1, none⟩,
         ⟨3, some "q", none, some 2, Prec.secondary, 2, 2, none⟩] ∧
    (∃ c ∈ applyMergePrefix 1 [2] 5 1
        [⟨1, none, some "a", none, Prec.primary, 0, 0, none⟩,
         ⟨2, some "p", none, none, Prec.primary, 1, 1, none⟩,
         ⟨3, some "q", none, some 2, Prec.secondary, 2, 2, none⟩],
      c.id = 3 ∧ c.linkedId = some 2) ∧
    (∃ d ∈ applyMergePrefix 1 [2] 5 1
        [⟨1, none, some "a", none, Prec.primary, 0, 0, none⟩,
         ⟨2, some "p", none, none, Prec.primary, 1, 1, none⟩,
         ⟨3, some "q", none, some 2, Prec.secondary, 2, 2, none⟩],
      d.id = 2 ∧ d.linkPrecedence = Prec.secondary) := by decide

/-- Claim C8 (counterexample): a successful identify response serializes
the consolidated object with the key `primaryContatctId` (a transposed
spelling), not `primaryContactId` as the claim states. -/
theorem c8_key_spelling_counterexample :
    (identifyStep [] 1 ⟨some "a", some "p"⟩ 0).2.2 = some ⟨1, ["a"], ["p"], []⟩ ∧
    "primaryContactId" ∉ (respJsonFields ⟨1, ["a"], ["p"], []⟩).map Prod.fst ∧
    "primaryContatctId" ∈ (respJsonFields ⟨1, ["a"], ["p"], []⟩).map Prod.fst := by decide

/-- Claim C8 (amended): the serialized consolidated-identity object has
exactly the four keys `primaryContatctId` (with the source's transposed
spelling), `emails`, `phoneNumbers`, and `secondaryContactIds`, in that
order, with an int, a string list, a string list and an int list. -/
theorem c8_key_spelling_amended (r : ContactResp) :
    (respJsonFields r).map Prod.fst =
      ["primaryContatctId", "emails", "phoneNumbers", "secondaryContactIds"] := rfl

/-- Claim C9: when building the response from a chain, an empty-string
email or phone value contributes nothing: replacing every empty-string
field by null leaves the response unchanged, and the empty string never
appears in the emails or phoneNumbers lists. -/
theorem c9_blank_values_filtered :
    (∀ contacts : List Contact,
      returnResponse (contacts.map blankToNone) = returnResponse contacts) ∧
    (∀ (contacts : List Contact) (r : ContactResp), returnResponse contacts = some r →
      "" ∉ r.emails ∧ "" ∉ r.phoneNumbers) := by
  refine ⟨returnResponse_map_blank, ?_⟩
  intro contacts r hr
  unfold returnResponse at hr
  cases hfind : contacts.find? (fun c => c.linkPrecedence == Prec.primary) with
  | none =>
    rw [hfind] at hr
    exact Option.noConfusion hr
  | some primary =>
    rw [hfind] at hr
    dsimp only at hr
    injection hr with hr
    subst hr
    exact ⟨fun hmem => blank_not_mem_filterBooleanStr _ ((dedupFirst_mem _ _).1 hmem),
      fun hmem => blank_not_mem_filterBooleanStr _ ((dedupFirst_mem _ _).1 hmem)⟩

/-- Witness for C9 at a concrete chain whose only contact has
empty-string email and phone: both response lists are empty. -/
theorem c9_blank_values_filtered_witness :
    returnResponse ([⟨1, some "", some "", none, Prec.primary, 0, 0, none⟩].map blankToNone)
      = returnResponse [⟨1, some "", some "", none, Prec.primary, 0, 0, none⟩] ∧
    returnResponse [⟨1, some "", some "", none, Prec.primary, 0, 0, none⟩]
      = some ⟨1, [], [], []⟩ ∧
    "" ∉ (⟨1, [], [], []⟩ : ContactResp).emails :=
  ⟨c9_blank_values_filtered.1 _, by decide,
    (c9_blank_values_filtered.2 [⟨1, some "", some "", none, Prec.primary, 0, 0, none⟩]
      ⟨1, [], [], []⟩ (by decide)).1⟩

/-- Claim C10: the reparenting UPDATE of a merge rewrites the `linkedId`
(and bumps `updatedAt`) of every row whose `linkedId` equals a demoted
former primary's id — with no `deletedAt` filter, so soft-deleted
secondaries are mutated too — and this update is part of every merge
sequence demoting that primary, even though deleted rows are excluded
from matching and from chain resolution. -/
theorem c10_reparent_includes_deleted (s : List Contact) (oid pid now : Nat)
    (pids : List Nat) (c : Contact) (hc : c ∈ s) (hlk : c.linkedId = some pid)
    (hid : c.id ≠ pid) :
    reparentUpd oid pid now c = { c with linkedId := some oid, updatedAt := now } ∧
    { c with linkedId := some oid, updatedAt := now } ∈ s.map (reparentUpd oid pid now) ∧
    (pid ∈ pids → List.map (reparentUpd oid pid now) ∈ mergeAtomicOps oid pids now) ∧
    (∀ (e p : Option String) (n : Nat), c.deletedAt ≠ none →
      c ∉ findContactsByEmailOrPhone e p s ∧ c ∉ getAllContactsInChain n s) := by
  have hrep : reparentUpd oid pid now c
      = { c with linkedId := some oid, updatedAt := now } := by
    unfold reparentUpd
    rw [if_pos ⟨hlk, hid⟩]
  refine ⟨hrep, ?_, ?_, ?_⟩
  · rw [← hrep]
    exact List.mem_map_of_mem _ hc
  · intro hpid
    unfold mergeAtomicOps
    exact List.mem_flatMap.2 ⟨pid, hpid, by simp⟩
  · intro e p n hdel
    constructor
    · intro hmem
      have hcond := (List.mem_filter.1 hmem).2
      rw [Bool.and_eq_true, beq_iff_eq] at hcond
      exact hdel hcond.1
    · intro hmem
      have hx : c ∈ chainUnsorted n s := (List.mem_insertionSort chainLE).1 hmem
      rcases List.mem_append.1 hx with h | h
      · have hcond := (List.mem_filter.1 h).2
        simp only [Bool.and_eq_true, beq_iff_eq] at hcond
        exact hdel hcond.1.2
      · exact hdel (chainLevels_deletedAt s _ _ c h)

/-- Witness for C10 at a soft-deleted secondary linked to id 2. -/
theorem c10_reparent_includes_deleted_witness :
    (⟨3, none, none, some 2, Prec.secondary, 0, 0, some 9⟩ : Contact).linkedId = some 2 ∧
    (⟨3, none, none, some 2, Prec.secondary, 0, 0, some 9⟩ : Contact).deletedAt ≠ none ∧
    (reparentUpd 1 2 7 ⟨3, none, none, some 2, Prec.secondary, 0, 0, some 9⟩ =
      ⟨3, none, none, some 1, Prec.secondary, 0, 7, some 9⟩ ∧
    (⟨3, none, none, some 1, Prec.secondary, 0, 7, some 9⟩ : Contact) ∈
      [⟨3, none, none, some 2, Prec.secondary, 0, 0, some 9⟩].map (reparentUpd 1 2 7) ∧
    ((2 : Nat) ∈ [2] → List.map (reparentUpd 1 2 7) ∈ mergeAtomicOps 1 [2] 7) ∧
    (∀ (e p : Option String) (n : Nat),
      (⟨3, none, none, some 2, Prec.secondary, 0, 0, some 9⟩ : Contact).deletedAt ≠ none →
      (⟨3, none, none, some 2, Prec.secondary, 0, 0, some 9⟩ : Contact) ∉
        findContactsByEmailOrPhone e p
          [⟨3, none, none, some 2, Prec.secondary, 0, 0, some 9⟩] ∧
      (⟨3, none, none, some 2, Prec.secondary, 0, 0, some 9⟩ : Contact) ∉
        getAllContactsInChain n
          [⟨3, none, none, some 2, Prec.secondary, 0, 0, some 9⟩])) :=
  ⟨by decide, by decide, c10_reparent_includes_deleted
    [⟨3, none, none, some 2, Prec.secondary, 0, 0, some 9⟩] 1 2 7 [2]
    ⟨3, none, none, some 2, Prec.secondary, 0, 0, some 9⟩
    (by decide) (by decide) (by decide)⟩


/-- Claim C5: in every state reachable by a sequence of completed identify
requests (run from the empty store), no contact's `linkedId` references a
contact whose `linkPrecedence` is secondary; moreover the merge updates
set the `linkedId` of every contact that pointed at a demoted former
primary to the surviving primary's id, never leaving it at the demoted
contact. -/
theorem c5_linked_targets_primary :
    (∀ (reqs : List (Req × Nat)) (c : Contact) (j : Nat) (d : Contact),
      c ∈ (runIdentify reqs).1 → c.linkedId = some j →
      d ∈ (runIdentify reqs).1 → d.id = j → d.linkPrecedence = Prec.primary) ∧
    (∀ (oid now : Nat) (pids : List Nat) (c : Contact) (pid : Nat),
      pids.Nodup → oid ∉ pids → c.linkedId = some pid → pid ∈ pids → c.id ∉ pids →
      (mergeContact oid pids now c).linkedId = some oid) := by
  constructor
  · intro reqs c j d hc hlk hd hdid
    have hwf := runIdentify_WF reqs
    obtain ⟨d2, hd2, hd2id, hd2prim⟩ := hwf.2.2.2.1 c hc j hlk
    have hdd : d2 = d := List.inj_on_of_nodup_map hwf.1 hd2 hd (by rw [hd2id, hdid])
    rw [← hdd]
    exact hd2prim
  · intro oid now pids c pid hnd ho hlk hpid hcid
    rw [mergeContact_reparented oid pids now c pid ho hcid hlk hpid]

/-- Witness for C5: after two requests the store holds a secondary (id 2)
linked to id 1, and the record with id 1 is primary. -/
theorem c5_linked_targets_primary_witness :
    ((⟨2, some "q", some "a", some 1, Prec.secondary, 1, 1, none⟩ : Contact) ∈
      (runIdentify [(⟨some "a", some "p"⟩, 0), (⟨some "a", some "q"⟩, 1)]).1) ∧
    (⟨2, some "q", some "a", some 1, Prec.secondary, 1, 1, none⟩ : Contact).linkedId
      = some 1 ∧
    ((⟨1, some "p", some "a", none, Prec.primary, 0, 0, none⟩ : Contact) ∈
      (runIdentify [(⟨some "a", some "p"⟩, 0), (⟨some "a", some "q"⟩, 1)]).1) ∧
    (⟨1, some "p", some "a", none, Prec.primary, 0, 0, none⟩ : Contact).id = 1 ∧
    (⟨1, some "p", some "a", none, Prec.primary, 0, 0, none⟩ : Contact).linkPrecedence
      = Prec.primary :=
  ⟨by decide, by decide, by decide, by decide,
    c5_linked_targets_primary.1 [(⟨some "a", some "p"⟩, 0), (⟨some "a", some "q"⟩, 1)]
      ⟨2, some "q", some "a", some 1, Prec.secondary, 1, 1, none⟩ 1
      ⟨1, some "p", some "a", none, Prec.primary, 0, 0, none⟩
      (by decide) (by decide) (by decide) (by decide)⟩

/-- Claim C6: on a well-formed store in which the requested email and
phone are both already stored, the identify request `(email, phone)` and
a repeated identical request each create no contact (the stored id list
is unchanged) and both return the same `primaryContatctId`. -/
theorem c6_idempotent_when_both_known (s : List Contact) (nid t1 t2 : Nat)
    (es ps : String) (hwf : WF s nid) (hes : es ≠ "") (hps : ps ≠ "")
    (c1 : Contact) (hc1 : c1 ∈ s) (hc1e : c1.email = some es)
    (c2 : Contact) (hc2 : c2 ∈ s) (hc2p : c2.phoneNumber = some ps) :
    ∃ r1 r2 : ContactResp,
      (identifyStep s nid ⟨some es, some ps⟩ t1).2.2 = some r1 ∧
      (identifyStep (identifyStep s nid ⟨some es, some ps⟩ t1).1
        (identifyStep s nid ⟨some es, some ps⟩ t1).2.1 ⟨some es, some ps⟩ t2).2.2
        = some r2 ∧
      r1.primaryContatctId = r2.primaryContatctId ∧
      ((identifyStep s nid ⟨some es, some ps⟩ t1).1).map (fun c => c.id)
        = s.map (fun c => c.id) ∧
      ((identifyStep (identifyStep s nid ⟨some es, some ps⟩ t1).1
        (identifyStep s nid ⟨some es, some ps⟩ t1).2.1 ⟨some es, some ps⟩ t2).1).map
          (fun c => c.id) = s.map (fun c => c.id) := by
  obtain ⟨P, r1, hPmem1, hPprim, hnid, hr1, hr1id, hids1, hwf1, hd1x, hd2x, hone⟩ :=
    step_both_known s nid t1 es ps hwf hes hps c1 hc1 hc1e c2 hc2 hc2p
  obtain ⟨d1, hd1, hd1e⟩ := hd1x
  obtain ⟨d2, hd2, hd2p⟩ := hd2x
  rw [hnid]
  have heq2 := step_single_known (identifyStep s nid ⟨some es, some ps⟩ t1).1 nid t2 es ps
    hwf1 hes hps d1 hd1 hd1e d2 hd2 hd2p P hPmem1 hPprim hone
  rw [heq2]
  obtain ⟨r2, hr2, hr2id, _, _, _, _⟩ := returnResponse_chain _ nid hwf1 P hPmem1 hPprim
  exact ⟨r1, r2, hr1, hr2, by rw [hr1id, hr2id], hids1, hids1⟩

/-- Witness for C6 at a one-contact store already holding both values. -/
theorem c6_idempotent_when_both_known_witness :
    WF [⟨1, some "p", some "a", none, Prec.primary, 0, 0, none⟩] 2 ∧
    ("a" : String) ≠ "" ∧ ("p" : String) ≠ "" ∧
    ((⟨1, some "p", some "a", none, Prec.primary, 0, 0, none⟩ : Contact) ∈
      [⟨1, some "p", some "a", none, Prec.primary, 0, 0, none⟩]) ∧
    (⟨1, some "p", some "a", none, Prec.primary, 0, 0, none⟩ : Contact).email = some "a" ∧
    (⟨1, some "p", some "a", none, Prec.primary, 0, 0, none⟩ : Contact).phoneNumber
      = some "p" ∧
    (∃ r1 r2 : ContactResp,
      (identifyStep [⟨1, some "p", some "a", none, Prec.primary, 0, 0, none⟩] 2
        ⟨some "a", some "p"⟩ 5).2.2 = some r1 ∧
      (identifyStep (identifyStep [⟨1, some "p", some "a", none, Prec.primary, 0, 0, none⟩]
          2 ⟨some "a", some "p"⟩ 5).1
        (identifyStep [⟨1, some "p", some "a", none, Prec.primary, 0, 0, none⟩] 2
          ⟨some "a", some "p"⟩ 5).2.1 ⟨some "a", some "p"⟩ 6).2.2 = some r2 ∧
      r1.primaryContatctId = r2.primaryContatctId ∧
      ((identifyStep [⟨1, some "p", some "a", none, Prec.primary, 0, 0, none⟩] 2
        ⟨some "a", some "p"⟩ 5).1).map (fun c => c.id)
        = ([⟨1, some "p", some "a", none, Prec.primary, 0, 0, none⟩] : List Contact).map
          (fun c => c.id) ∧
      ((identifyStep (identifyStep [⟨1, some "p", some "a", none, Prec.primary, 0, 0, none⟩]
          2 ⟨some "a", some "p"⟩ 5).1
        (identifyStep [⟨1, some "p", some "a", none, Prec.primary, 0, 0, none⟩] 2
          ⟨some "a", some "p"⟩ 5).2.1 ⟨some "a", some "p"⟩ 6).1).map (fun c => c.id)
        = ([⟨1, some "p", some "a", none, Prec.primary, 0, 0, none⟩] : List Contact).map
          (fun c => c.id)) :=
  ⟨by decide, by decide, by decide, by decide, by decide, by decide,
    c6_idempotent_when_both_known
      [⟨1, some "p", some "a", none, Prec.primary, 0, 0, none⟩] 2 5 6 "a" "p"
      (by decide) (by decide) (by decide)
      ⟨1, some "p", some "a", none, Prec.primary, 0, 0, none⟩ (by decide) (by decide)
      ⟨1, some "p", some "a", none, Prec.primary, 0, 0, none⟩ (by decide) (by decide)⟩

/-- Claim C7: the response built from a resolved chain of a well-formed
store has duplicate-free `emails` and `phoneNumbers` lists, and whenever
the primary's email (resp. phone) is non-null it is the first element of
the corresponding list. -/
theorem c7_response_dedup_primary_first (s : List Contact) (nid : Nat) (hwf : WF s nid)
    (P : Contact) (hP : P ∈ s) (hprim : P.linkPrecedence = Prec.primary) :
    ∃ r, returnResponse (getAllContactsInChain P.id s) = some r ∧
      r.emails.Nodup ∧ r.phoneNumbers.Nodup ∧
      (∀ es, P.email = some es → r.emails.head? = some es) ∧
      (∀ ps, P.phoneNumber = some ps → r.phoneNumbers.head? = some ps) := by
  obtain ⟨r, hr, _, hnd1, hnd2, hh1, hh2⟩ := returnResponse_chain s nid hwf P hP hprim
  exact ⟨r, hr, hnd1, hnd2, hh1, hh2⟩

/-- Witness for C7 at a concrete two-contact chain. -/
theorem c7_response_dedup_primary_first_witness :
    WF [⟨1, some "p", some "a", none, Prec.primary, 0, 0, none⟩,
        ⟨2, some "q", some "a", some 1, Prec.secondary, 1, 1, none⟩] 3 ∧
    (∃ r, returnResponse (getAllContactsInChain 1
        [⟨1, some "p", some "a", none, Prec.primary, 0, 0, none⟩,
         ⟨2, some "q", some "a", some 1, Prec.secondary, 1, 1, none⟩]) = some r ∧
      r.emails.Nodup ∧ r.phoneNumbers.Nodup ∧
      (∀ es, (⟨1, some "p", some "a", none, Prec.primary, 0, 0, none⟩ : Contact).email
        = some es → r.emails.head? = some es) ∧
      (∀ ps, (⟨1, some "p", some "a", none, Prec.primary, 0, 0,
        none⟩ : Contact).phoneNumber = some ps → r.phoneNumbers.head? = some ps)) :=
  ⟨by decide, c7_response_dedup_primary_first
    [⟨1, some "p", some "a", none, Prec.primary, 0, 0, none⟩,
     ⟨2, some "q", some "a", some 1, Prec.secondary, 1, 1, none⟩] 3 (by decide)
    ⟨1, some "p", some "a", none, Prec.primary, 0, 0, none⟩ (by decide) (by decide)⟩
